import Mathlib

/-!
# Verification of the excel-to-json conversion pipeline

Shallow embedding of the core of the `excel-to-json` TypeScript repository:
CSV type inference and parsing (`src/parsers/csv-parser.ts`), header
processing (`HeaderProcessor`), data cleaning (`src/utils/data-cleaner.ts`),
nested-object reconstruction (`src/utils/nested-object-builder.ts`), Excel
header extraction (`src/parsers/excel-parser.ts`) and the result-shape logic
of the orchestrator (`src/core/spreadsheet-converter.ts`).

JavaScript strings are modelled as `List Char`; JavaScript numbers as exact
rationals (plus signed infinity); JavaScript records as association lists in
insertion order (JS object keys are unique, which appears as `Nodup`
hypotheses where a proof needs it).
-/

set_option maxHeartbeats 1000000

namespace ExcelToJson

/-- JavaScript strings are modelled as lists of characters. -/
abbrev JStr := List Char

/-- Coerce a Lean string literal to the `JStr` model. -/
def js (s : String) : JStr := s.toList

/-- The whitespace class used by JS `trim` / `\s` (ASCII part, which is all
the repository's inputs use). -/
def isJsSpace (c : Char) : Bool :=
  c = ' ' ∨ c = '\t' ∨ c = '\n' ∨ c = '\r' ∨ c = '\x0b' ∨ c = '\x0c'

/-- JS `String.prototype.trim`. -/
def jsTrim (s : JStr) : JStr :=
  (s.dropWhile isJsSpace).reverse.dropWhile isJsSpace |>.reverse

/-- JS `String.prototype.split` with a single-character separator. -/
def splitOnChar (sep : Char) (s : JStr) : List JStr :=
  match s with
  | [] => [[]]
  | c :: rest =>
    let tail := splitOnChar sep rest
    if c = sep then
      [] :: tail
    else
      match tail with
      | [] => [[c]]
      | t :: ts => (c :: t) :: ts

/-- Join string pieces with a single-character separator (inverse of
`splitOnChar` on separator-free pieces). -/
def joinWithChar (sep : Char) : List JStr → JStr
  | [] => []
  | [p] => p
  | p :: rest => p ++ sep :: joinWithChar sep rest

/-- ASCII lower-casing, as JS `toLowerCase` acts on the ASCII range. -/
def toLowerChar (c : Char) : Char :=
  if 'A' ≤ c ∧ c ≤ 'Z' then Char.ofNat (c.toNat + 32) else c

/-- JS `toLowerCase` (ASCII range). -/
def jsToLower (s : JStr) : JStr := s.map toLowerChar

/-- Decimal digit test (`\d`). -/
def isDigitChar (c : Char) : Bool := '0' ≤ c ∧ c ≤ '9'

/-- Numeric value of a list of decimal digits. -/
def digitsToNat (s : JStr) : Nat :=
  s.foldl (fun acc c => acc * 10 + (c.toNat - '0'.toNat)) 0

/-- Decimal rendering of a natural number (JS template `${count}` for the
natural numbers the code interpolates). -/
def natToJStr (n : Nat) : JStr := (Nat.repr n).toList

/-- JS numbers as stored by the pipeline: an exact rational (the spec-level
model of a finite double) or a signed infinity.  `NaN` is never stored
because the code always guards with `isNaN` first. -/
inductive JsNum where
  | fin (q : ℚ)
  | inf (positive : Bool)
  deriving DecidableEq

/-- The JavaScript values that flow through the CSV/cleaning stages:
`null`, `undefined`, booleans, numbers, strings and `Date` objects
(a date is recorded by the calendar day it denotes). -/
inductive JSValue where
  | null
  | undef
  | bool (b : Bool)
  | num (n : JsNum)
  | str (s : JStr)
  | date (y m d : Nat)
  deriving DecidableEq

/-! ## JS `Number(string)` (ECMAScript StringNumericLiteral, for trimmed
nonempty input, as used by `inferAndConvertType`) -/

/-- Hexadecimal digit test. -/
def isHexDigitChar (c : Char) : Bool :=
  isDigitChar c ∨ ('a' ≤ c ∧ c ≤ 'f') ∨ ('A' ≤ c ∧ c ≤ 'F')

/-- Value of a hexadecimal digit. -/
def hexDigitVal (c : Char) : Nat :=
  if isDigitChar c then c.toNat - '0'.toNat
  else if 'a' ≤ c ∧ c ≤ 'f' then c.toNat - 'a'.toNat + 10
  else c.toNat - 'A'.toNat + 10

/-- Numeric value of hex digits. -/
def hexToNat (s : JStr) : Nat :=
  s.foldl (fun acc c => acc * 16 + hexDigitVal c) 0

/-- Numeric value of digits in an arbitrary base. -/
def baseToNat (b : Nat) (s : JStr) : Nat :=
  s.foldl (fun acc c => acc * b + (c.toNat - '0'.toNat)) 0

/-- Exponent part of a decimal literal: `[+-]?digits`, must consume the
whole remaining input. -/
def parseExponent (s : JStr) : Option Int :=
  let (sg, s1) : Int × JStr :=
    match s with
    | '+' :: t => (1, t)
    | '-' :: t => (-1, t)
    | _ => (1, s)
  let ds := s1.takeWhile isDigitChar
  if ds ≠ [] ∧ s1.drop ds.length = [] then some (sg * (digitsToNat ds : Int)) else none

/-- The exact value of a decimal literal with sign `neg`, integer digits
`ip`, fraction digits `fp` and decimal exponent `e`. -/
def decLitVal (neg : Bool) (ip fp : JStr) (e : Int) : ℚ :=
  (if neg then -1 else 1) * ((digitsToNat (ip ++ fp) : ℚ) / ((10 : ℚ) ^ fp.length)) *
    (10 : ℚ) ^ e

/-- A full JS decimal numeric literal `[+-]?(d+(.d*)?|.d+)([eE][+-]?d+)?`,
evaluated exactly over ℚ. -/
def parseDecimalLiteral (s : JStr) : Option ℚ :=
  let (neg, s1) : Bool × JStr :=
    match s with
    | '+' :: t => (false, t)
    | '-' :: t => (true, t)
    | _ => (false, s)
  let ip := s1.takeWhile isDigitChar
  let r1 := s1.drop ip.length
  let (fp, r2) : JStr × JStr :=
    match r1 with
    | '.' :: t => (t.takeWhile isDigitChar, t.drop (t.takeWhile isDigitChar).length)
    | _ => ([], r1)
  if ip = [] ∧ fp = [] then none
  else
    match r2 with
    | [] => some (decLitVal neg ip fp 0)
    | c :: t =>
      if c = 'e' ∨ c = 'E' then
        match parseExponent t with
        | some e => some (decLitVal neg ip fp e)
        | none => none
      else none

/-- JS `Number(s)` for a trimmed, nonempty string `s`: `none` models `NaN`.
Covers the signed infinities, `0x`/`0o`/`0b` integer literals and decimal
literals of the ECMAScript `StringNumericLiteral` grammar. -/
def jsNumberParse (s : JStr) : Option JsNum :=
  if s = js "Infinity" ∨ s = js "+Infinity" then some (.inf true)
  else if s = js "-Infinity" then some (.inf false)
  else
    match s with
    | '0' :: x :: rest =>
      if x = 'x' ∨ x = 'X' then
        if rest ≠ [] ∧ rest.all isHexDigitChar then some (.fin (hexToNat rest : ℚ)) else none
      else if x = 'o' ∨ x = 'O' then
        if rest ≠ [] ∧ rest.all (fun c => '0' ≤ c ∧ c ≤ '7') then
          some (.fin (baseToNat 8 rest : ℚ)) else none
      else if x = 'b' ∨ x = 'B' then
        if rest ≠ [] ∧ rest.all (fun c => c = '0' ∨ c = '1') then
          some (.fin (baseToNat 2 rest : ℚ)) else none
      else (parseDecimalLiteral s).map .fin
    | _ => (parseDecimalLiteral s).map .fin

/-! ## JS `new Date(string)` on the four shapes tested by `looksLikeDate`

`looksLikeDate` (csv-parser.ts) tests the four regexes
`^\d{4}-\d{2}-\d{2}$`, `^\d{2}/\d{2}/\d{4}$`, `^\d{2}-\d{2}-\d{4}$` and
`^\d{1,2}/\d{1,2}/\d{4}$`; only when one matches does the code call
`new Date(value)` and keep the result when `getTime()` is not `NaN`.
V8 (the engine the package runs on) parses the ISO shape `YYYY-MM-DD`
strictly — out-of-range month or day gives an Invalid Date — while the
legacy US shapes `MM/DD/YYYY`, `MM-DD-YYYY`, `M/D/YYYY` require month
1–12 and day 1–31 but let an overflow day roll into the following month
(`new Date("02/31/2024")` is March 2 2024). -/

/-- `^\d{4}-\d{2}-\d{2}$`. -/
def matchesIsoDate (s : JStr) : Bool :=
  match s with
  | [a, b, c, d, h1, e, f, h2, g, h] =>
    h1 = '-' ∧ h2 = '-' ∧ [a, b, c, d, e, f, g, h].all isDigitChar
  | _ => false

/-- `^\d{2}/\d{2}/\d{4}$`. -/
def matchesUsSlashDate (s : JStr) : Bool :=
  match s with
  | [a, b, s1, c, d, s2, e, f, g, h] =>
    s1 = '/' ∧ s2 = '/' ∧ [a, b, c, d, e, f, g, h].all isDigitChar
  | _ => false

/-- `^\d{2}-\d{2}-\d{4}$`. -/
def matchesUsDashDate (s : JStr) : Bool :=
  match s with
  | [a, b, s1, c, d, s2, e, f, g, h] =>
    s1 = '-' ∧ s2 = '-' ∧ [a, b, c, d, e, f, g, h].all isDigitChar
  | _ => false

/-- `^\d{1,2}/\d{1,2}/\d{4}$`. -/
def matchesShortSlashDate (s : JStr) : Bool :=
  match splitOnChar '/' s with
  | [ms, ds, ys] =>
    1 ≤ ms.length ∧ ms.length ≤ 2 ∧ ms.all isDigitChar ∧
    1 ≤ ds.length ∧ ds.length ≤ 2 ∧ ds.all isDigitChar ∧
    ys.length = 4 ∧ ys.all isDigitChar
  | _ => false

/-- Gregorian leap year. -/
def isLeapYear (y : Nat) : Bool :=
  (y % 4 = 0 ∧ y % 100 ≠ 0) ∨ y % 400 = 0

/-- Days in a month. -/
def daysInMonth (y m : Nat) : Nat :=
  if m = 2 then (if isLeapYear y then 29 else 28)
  else if m = 4 ∨ m = 6 ∨ m = 9 ∨ m = 11 then 30
  else 31

/-- Roll an overflow day (at most 31) into the following month, as V8's
legacy date parser does via `MakeDay`. -/
def rollOverDate (y m d : Nat) : Nat × Nat × Nat :=
  if d ≤ daysInMonth y m then (y, m, d)
  else if m = 12 then (y + 1, 1, d - daysInMonth y m)
  else (y, m + 1, d - daysInMonth y m)

/-- V8 `new Date(s)` restricted to the four `looksLikeDate` shapes:
`some (y, m, d)` is a valid Date denoting that calendar day, `none` is an
Invalid Date (`getTime()` is `NaN`).  For other strings the function is
never consulted by the embedded code. -/
def jsDateParse (s : JStr) : Option (Nat × Nat × Nat) :=
  if matchesIsoDate s then
    let y := digitsToNat (s.take 4)
    let m := digitsToNat ((s.drop 5).take 2)
    let d := digitsToNat ((s.drop 8).take 2)
    if 1 ≤ m ∧ m ≤ 12 ∧ 1 ≤ d ∧ d ≤ daysInMonth y m then some (y, m, d) else none
  else if matchesUsSlashDate s ∨ matchesShortSlashDate s then
    match splitOnChar '/' s with
    | [ms, ds, ys] =>
      let m := digitsToNat ms
      let d := digitsToNat ds
      let y := digitsToNat ys
      if 1 ≤ m ∧ m ≤ 12 ∧ 1 ≤ d ∧ d ≤ 31 then some (rollOverDate y m d) else none
    | _ => none
  else if matchesUsDashDate s then
    match splitOnChar '-' s with
    | [ms, ds, ys] =>
      let m := digitsToNat ms
      let d := digitsToNat ds
      let y := digitsToNat ys
      if 1 ≤ m ∧ m ≤ 12 ∧ 1 ≤ d ∧ d ≤ 31 then some (rollOverDate y m d) else none
    | _ => none
  else none

/-! ## CSV parser (`src/parsers/csv-parser.ts`) -/

/-- `CSV_BOOLEAN_VALUES.TRUE_VALUES` (constants.ts). -/
def TRUE_VALUES : List JStr := [js "true", js "yes", js "y"]

/-- `CSV_BOOLEAN_VALUES.ALL_BOOLEAN_VALUES` (constants.ts). -/
def ALL_BOOLEAN_VALUES : List JStr :=
  [js "true", js "false", js "yes", js "no", js "y", js "n"]

/-- `CsvParsingConfiguration` after `normalizeConfiguration`: every field
present.  Delimiters and quote characters are JS strings (single characters
in all defaulted configurations). -/
structure CsvConfig where
  fieldDelimiter : JStr
  quoteCharacter : JStr
  escapeCharacter : JStr
  shouldTrimFields : Bool
  commentCharacter : JStr
  deriving DecidableEq

/-- The configuration produced by `normalizeConfiguration({})`: no
delimiter yet (auto-detected on first parse), quote and escape are `"`. -/
def defaultCsvConfig : CsvConfig :=
  { fieldDelimiter := []
    quoteCharacter := js "\""
    escapeCharacter := js "\""
    shouldTrimFields := true
    commentCharacter := [] }

/-- `CsvParser.countFieldsInLine`: count delimiter-separated fields of one
line, toggling an in-quotes flag on the configured quote character. -/
def countFieldsInLine (quoteCharacter : JStr) (line : JStr) (delimiter : JStr) : Nat :=
  (line.foldl
    (fun (acc : Nat × Bool) c =>
      if [c] = quoteCharacter then (acc.1, !acc.2)
      else if [c] = delimiter ∧ !acc.2 then (acc.1 + 1, acc.2)
      else acc)
    (1, false)).1

/-- The statistics part of `calculateDelimiterScore` on the per-line field
counts: 0.7 × consistency + 0.3 × field richness. -/
def scoreOfCounts (fieldCounts : List Nat) : ℚ :=
  if fieldCounts.length < 2 then 0
  else
    let mean : ℚ := ((fieldCounts.foldl (fun sum c => sum + c) 0 : Nat) : ℚ) / (fieldCounts.length : ℚ)
    let variance : ℚ :=
      (fieldCounts.foldl (fun sum c => sum + ((c : ℚ) - mean) ^ 2) 0) / (fieldCounts.length : ℚ)
    let consistencyScore : ℚ := if mean > 1 then max 0 (1 - variance / mean) else 0
    let fieldCountScore : ℚ := min 1 (mean / 5)
    consistencyScore * (7 / 10) + fieldCountScore * (3 / 10)

/-- `CsvParser.calculateDelimiterScore`: 0.7 × consistency + 0.3 × field
richness over the per-line field counts, with exact rational arithmetic. -/
def calculateDelimiterScore (quoteCharacter : JStr) (lines : List JStr) (delimiter : JStr) : ℚ :=
  scoreOfCounts (lines.map (fun line => countFieldsInLine quoteCharacter line delimiter))

/-- The candidate list `[',', ';', '\t', '|']` of `detectOptimalDelimiter`. -/
def commonDelimiters : List JStr := [js ",", js ";", js "\t", js "|"]

/-- `CsvParser.detectOptimalDelimiter`: sample the non-blank lines among the
first 10 lines; with fewer than 2 return `,`; otherwise keep the first
candidate whose score strictly beats all earlier bests. -/
def detectOptimalDelimiter (config : CsvConfig) (content : JStr) : JStr :=
  let sampleLines :=
    ((splitOnChar '\n' content).take 10).filter (fun line => !(jsTrim line = []))
  if sampleLines.length < 2 then js ","
  else
    (commonDelimiters.foldl
      (fun (best : JStr × ℚ) delimiter =>
        let score := calculateDelimiterScore config.quoteCharacter sampleLines delimiter
        if score > best.2 then (delimiter, score) else best)
      (js ",", 0)).1

/-- One step of `parseLineFields`' field accumulator. -/
def finishField (shouldTrim : Bool) (f : JStr) : JStr :=
  if shouldTrim then jsTrim f else f

/-- The character loop of `CsvParser.parseLineFields`, with the escaped
quote (`escapeChar` followed by `quoteChar` inside quotes) consuming two
characters.  On the last character `nextChar` is the empty string, so the
escape branch cannot fire and the remaining cases are inlined. -/
def parseLineFieldsGo (delimiter quoteChar escapeChar : JStr) (shouldTrim : Bool) :
    JStr → JStr → List JStr → Bool → List JStr
  | [], currentField, fields, _ =>
    fields ++ [finishField shouldTrim currentField]
  | [c], currentField, fields, inQuotes =>
    if [c] = quoteChar then
      fields ++ [finishField shouldTrim currentField]
    else if [c] = delimiter ∧ !inQuotes then
      (fields ++ [finishField shouldTrim currentField]) ++ [finishField shouldTrim []]
    else
      fields ++ [finishField shouldTrim (currentField ++ [c])]
  | c :: c2 :: rest, currentField, fields, inQuotes =>
    if [c] = escapeChar ∧ [c2] = quoteChar ∧ inQuotes then
      parseLineFieldsGo delimiter quoteChar escapeChar shouldTrim rest
        (currentField ++ quoteChar) fields inQuotes
    else if [c] = quoteChar then
      parseLineFieldsGo delimiter quoteChar escapeChar shouldTrim (c2 :: rest)
        currentField fields (!inQuotes)
    else if [c] = delimiter ∧ !inQuotes then
      parseLineFieldsGo delimiter quoteChar escapeChar shouldTrim (c2 :: rest) []
        (fields ++ [finishField shouldTrim currentField]) inQuotes
    else
      parseLineFieldsGo delimiter quoteChar escapeChar shouldTrim (c2 :: rest)
        (currentField ++ [c]) fields inQuotes

/-- `CsvParser.parseLineFields`. -/
def parseLineFields (line : JStr) (delimiter quoteChar escapeChar : JStr) (shouldTrim : Bool) :
    List JStr :=
  parseLineFieldsGo delimiter quoteChar escapeChar shouldTrim line [] [] false

/-- `CsvParser.looksLikeDate`. -/
def looksLikeDate (value : JStr) : Bool :=
  matchesIsoDate value ∨ matchesUsSlashDate value ∨ matchesUsDashDate value ∨
    matchesShortSlashDate value

/-- `CsvParser.inferAndConvertType`: trim; empty → null; boolean token →
boolean; `Number`-parsable → number (for a non-integer the code re-parses
with `parseFloat`, which yields the same value on every fully-numeric
string, so the `Number` value is returned directly); date-shaped and
accepted by `new Date` → the date; otherwise the trimmed string. -/
def inferAndConvertType (value : JStr) : JSValue :=
  let trimmedValue := jsTrim value
  if trimmedValue = [] then .null
  else if ALL_BOOLEAN_VALUES.contains (jsToLower trimmedValue) then
    .bool (TRUE_VALUES.contains (jsToLower trimmedValue))
  else
    match jsNumberParse trimmedValue with
    | some n => .num n
    | none =>
      if looksLikeDate trimmedValue then
        match jsDateParse trimmedValue with
        | some (y, m, d) => .date y m d
        | none => .str trimmedValue
      else .str trimmedValue

/-- A row record: a JS object in insertion order. -/
abbrev Row := List (JStr × JSValue)

/-- JS `row[header] = value`: replace the value in place if the key exists,
otherwise append the pair. -/
def jsSet (row : Row) (k : JStr) (v : JSValue) : Row :=
  if row.any (fun e => e.1 = k) then
    row.map (fun e => if e.1 = k then (k, v) else e)
  else row ++ [(k, v)]

/-- The line filter of `parseCsvInternal`: split on `\n`, drop blank lines
and lines starting with the configured comment marker. -/
def retainedCsvLines (config : CsvConfig) (content : JStr) : List JStr :=
  (splitOnChar '\n' content).filter (fun line =>
    let trimmed := jsTrim line
    !(trimmed = []) ∧ (config.commentCharacter = [] ∨ !(config.commentCharacter.isPrefixOf trimmed)))

/-- The header fields of a CSV text: the first retained line, tokenized. -/
def csvHeaders (config : CsvConfig) (content : JStr) : List JStr :=
  match retainedCsvLines config content with
  | [] => []
  | headerLine :: _ =>
    parseLineFields headerLine config.fieldDelimiter config.quoteCharacter
      config.escapeCharacter config.shouldTrimFields

/-- `CsvParser.parseCsvInternal`: split into lines, drop blank and comment
lines, parse the first retained line as headers, build each remaining line
into a row, reading `''` for positions past the parsed fields (the header
loop only reaches in-bounds positions, rendered with `getD`). -/
def parseCsvInternal (config : CsvConfig) (content : JStr) : List Row :=
  match retainedCsvLines config content with
  | [] => []
  | headerLine :: dataLines =>
    let headers := parseLineFields headerLine config.fieldDelimiter config.quoteCharacter
      config.escapeCharacter config.shouldTrimFields
    dataLines.map (fun line =>
      let fields := parseLineFields line config.fieldDelimiter config.quoteCharacter
        config.escapeCharacter config.shouldTrimFields
      (List.range headers.length).foldl
        (fun row j =>
          jsSet row (headers.getD j []) (inferAndConvertType (fields.getD j [])))
        [])

/-- `CsvParser.parse` on a parser whose configuration is `config`: throws
on empty content, otherwise resolves a missing field delimiter by
auto-detection — storing it back into the instance configuration — and
parses.  Returns the outcome together with the instance's configuration
after the call. -/
def parse (config : CsvConfig) (content : JStr) :
    Except JStr (List Row) × CsvConfig :=
  if content = [] then (.error (js "Invalid CSV content provided"), config)
  else
    let config1 :=
      if config.fieldDelimiter = [] then
        { config with fieldDelimiter := detectOptimalDelimiter config content }
      else config
    (.ok (parseCsvInternal config1 content), config1)

/-! ## Header processing (`src/utils/header-processor.ts`) -/

/-- `\w` of `HEADER_CONSTANTS.SPECIAL_CHARS_REGEX`: ASCII word character. -/
def isWordChar (c : Char) : Bool :=
  ('a' ≤ c ∧ c ≤ 'z') ∨ ('A' ≤ c ∧ c ≤ 'Z') ∨ isDigitChar c ∨ c = '_'

/-- The run-tracking loop of `replaceRuns`: `inRun` records whether the
previous character belonged to a run being replaced. -/
def replaceRunsGo (p : Char → Bool) (r : Char) (inRun : Bool) : JStr → JStr
  | [] => []
  | c :: rest =>
    if p c then
      if inRun then replaceRunsGo p r true rest
      else r :: replaceRunsGo p r true rest
    else c :: replaceRunsGo p r false rest

/-- Replace every maximal run of characters satisfying `p` by the single
character `r` (the model of a global regex replace of `X+` patterns). -/
def replaceRuns (p : Char → Bool) (r : Char) (s : JStr) : JStr :=
  replaceRunsGo p r false s

/-- `/^_|_$/g`: strip one leading and one trailing underscore. -/
def stripEdgeUnderscores (s : JStr) : JStr :=
  let s1 := match s with | '_' :: t => t | _ => s
  match s1.reverse with | '_' :: t => t.reverse | _ => s1

/-- `HeaderProcessor.normalizeHeaderForProcessing`: lower-case, trim,
replace each non-word non-space character by `_`, each whitespace run by
`_`, collapse underscore runs, and strip edge underscores. -/
def normalizeHeaderForProcessing (header : JStr) : JStr :=
  let lowered := jsTrim (jsToLower header)
  let specials := lowered.map (fun c => if !(isWordChar c) ∧ !(isJsSpace c) then '_' else c)
  let spaces := replaceRuns isJsSpace '_' specials
  let collapsed := replaceRuns (fun c => c = '_') '_' spaces
  stripEdgeUnderscores collapsed

/-- `HeaderProcessor.ensureUniqueHeaders`: fold over the headers with a map
of how often every normalized form has been seen; a repeat occurrence gets
`_<count>` appended. -/
def ensureUniqueHeaders (headers : List JStr) : List JStr :=
  (headers.foldl
    (fun (acc : (JStr → Nat) × List JStr) header =>
      let normalizedHeader := normalizeHeaderForProcessing header
      let count := acc.1 normalizedHeader
      let seen := fun k => if k = normalizedHeader then count + 1 else acc.1 k
      let uniqueHeader := if count = 0 then header else header ++ '_' :: natToJStr count
      (seen, acc.2 ++ [uniqueHeader]))
    (fun _ => 0, [])).2

/-! ## Data cleaning (`src/utils/data-cleaner.ts` and
`CommonPatterns` of types.ts) -/

/-- `CommonPatterns.isNonEmptyValue`: not `null`, not `undefined`, not the
empty string and, for strings, not blank after trimming. -/
def isNonEmptyValue (value : JSValue) : Bool :=
  match value with
  | .null => false
  | .undef => false
  | .str s => !(s = []) ∧ !(jsTrim s = [])
  | _ => true

/-- `CommonPatterns.getNonEmptyEntries`. -/
def getNonEmptyEntries (row : Row) : List (JStr × JSValue) :=
  row.filter (fun e => isNonEmptyValue e.2)

/-- `COMMON index column names` of `DataCleaner.isLikelyIndexColumn`. -/
def commonIndexNames : List JStr :=
  [js "index", js "row", js "rownum", js "rownumber", js "#"]

/-- `DataCleaner.isLikelyIndexColumn`: purely-numeric key, single
uppercase-letter key or a common index name, with a positive-integer
numeric value. -/
def isLikelyIndexColumn (key : JStr) (value : JSValue) : Bool :=
  let isNumericKey : Bool := !(key = []) ∧ key.all isDigitChar
  let isSingleLetterKey : Bool := match key with | [c] => 'A' ≤ c ∧ c ≤ 'Z' | _ => false
  let isNumericValue : Bool :=
    match value with
    | .num (.fin q) => q.den = 1 ∧ 0 < q
    | _ => false
  let isCommonIndexName : Bool := commonIndexNames.contains (jsToLower key)
  (isNumericKey || isSingleLetterKey || isCommonIndexName) && isNumericValue

/-- `DataCleaner.hasNonEmptyValue`: no meaningful field → empty; exactly
one meaningful field that looks like an index column → empty when index
rows are ignored; otherwise non-empty. -/
def hasNonEmptyValue (row : Row) (ignoreIndexOnlyRows : Bool) : Bool :=
  match getNonEmptyEntries row with
  | [] => false
  | [(key, value)] =>
    if ignoreIndexOnlyRows then !(isLikelyIndexColumn key value) else true
  | _ => true

/-- JS `row[key]` on a record with unique keys (`undefined` when absent). -/
def jsGet (row : Row) (key : JStr) : JSValue :=
  ((row.find? (fun e => e.1 = key)).map (fun e => e.2)).getD JSValue.undef

/-- First-occurrence deduplication (`Set` insertion order in
`identifyEmptyColumns`; only membership in the result is ever used). -/
def dedupKeys (keys : List JStr) : List JStr :=
  keys.foldl (fun acc k => if acc.contains k then acc else acc ++ [k]) []

/-- `DataCleaner.identifyEmptyColumns`: the keys that have no meaningful
value in any row. -/
def identifyEmptyColumns (data : List Row) : List JStr :=
  (dedupKeys (data.flatMap (fun row => row.map (fun e => e.1)))).filter
    (fun key => !(data.any (fun row => isNonEmptyValue (jsGet row key))))

/-- The per-row re-projection of `cleanDataset`, dropping entries whose key
is an identified empty column (rows are JS records, so each key occurs
once and the entry-order rebuild is a filter). -/
def projectRow (emptyColumns : List JStr) (row : Row) : Row :=
  row.filter (fun e => !(emptyColumns.contains e.1))

/-- `DataCleaner.cleanDataset`. -/
def cleanDataset (data : List Row) (skipEmptyRows skipEmptyColumns : Bool)
    (ignoreIndexOnlyRows : Bool) : List Row :=
  if data.length = 0 then data
  else
    let cleaned1 :=
      if skipEmptyRows then data.filter (fun row => hasNonEmptyValue row ignoreIndexOnlyRows)
      else data
    if skipEmptyColumns ∧ 0 < cleaned1.length then
      let emptyColumns := identifyEmptyColumns cleaned1
      if 0 < emptyColumns.length then cleaned1.map (projectRow emptyColumns)
      else cleaned1
    else cleaned1

/-! ## Nested-object builder (`src/utils/nested-object-builder.ts`) -/

/-- The values of rows after nested-object reconstruction: primitives,
objects (records in insertion order) and arrays. -/
inductive NVal where
  | prim (v : JSValue)
  | obj (entries : List (JStr × NVal))
  | arr (elems : List NVal)

/-- A row whose values may be nested. -/
abbrev NRow := List (JStr × NVal)

/-- `NUMERIC_PATTERNS.NUMERIC_INDEX_REGEX` (`^\d+$`). -/
def isNumericSegment (s : JStr) : Bool := !(s = []) ∧ s.all isDigitChar

/-- Insert-or-replace on a record in insertion order (JS assignment). -/
def nSet (o : NRow) (k : JStr) (v : NVal) : NRow :=
  if o.any (fun e => e.1 = k) then
    o.map (fun e => if e.1 = k then (k, v) else e)
  else o ++ [(k, v)]

/-- Record lookup. -/
def nGet (o : NRow) (k : JStr) : Option NVal :=
  (o.find? (fun e => e.1 = k)).map (fun e => e.2)

/-- Array assignment `current[index] = value`, padding skipped positions
with `undefined` holes as JS does. -/
def arrSet (a : List NVal) (i : Nat) (v : NVal) : List NVal :=
  if i < a.length then a.set i v
  else a ++ List.replicate (i - a.length) (.prim .undef) ++ [v]

mutual

/-- `NestedObjectBuilder.setNestedValue`, as a functional rendering of the
mutating walk: descend along the path, creating `[]` when the next segment
is numeric and `{}` otherwise wherever the current value is absent or not a
container, then assign at the leaf (integer-indexed when the leaf segment
is numeric and the container is an array). -/
def setNestedValue (o : NRow) : List JStr → NVal → NRow
  | [], _ => o
  | [lastKey], value => nSet o lastKey value
  | key :: next :: rest, value =>
    let isNextKeyNumeric := isNumericSegment next
    let child :=
      match nGet o key with
      | some (.obj e) => NVal.obj e
      | some (.arr a) => NVal.arr a
      | _ => if isNextKeyNumeric then .arr [] else .obj []
    match child with
    | .obj e => nSet o key (.obj (setNestedValue e (next :: rest) value))
    | .arr a => nSet o key (.arr (setNestedArr a (next :: rest) value))
    | .prim p => nSet o key (.prim p)

/-- The array case of the walk: a numeric segment indexes the array; the
branch where a non-numeric segment meets an array (a named property on a
JS array, invisible to the JSON output) leaves the array unchanged and is
unreachable on the object-only inputs considered here. -/
def setNestedArr (a : List NVal) : List JStr → NVal → List NVal
  | [], _ => a
  | [lastKey], value =>
    if isNumericSegment lastKey then arrSet a (digitsToNat lastKey) value else a
  | key :: next :: rest, value =>
    if isNumericSegment key then
      let i := digitsToNat key
      let child :=
        match (a.getD i (.prim .undef)) with
        | .obj e => NVal.obj e
        | .arr el => NVal.arr el
        | _ => if isNumericSegment next then .arr [] else .obj []
      match child with
      | .obj e => arrSet a i (.obj (setNestedValue e (next :: rest) value))
      | .arr el => arrSet a i (.arr (setNestedArr el (next :: rest) value))
      | .prim p => arrSet a i (.prim p)
    else a

end

/-- `NestedObjectBuilder.processRowForNesting`: dotted keys are split and
placed by `setNestedValue`, plain keys are assigned directly. -/
def processRowForNesting (row : NRow) : NRow :=
  row.foldl
    (fun result e =>
      if e.1.contains '.' then setNestedValue result (splitOnChar '.' e.1) e.2
      else nSet result e.1 e.2)
    []

/-- `NestedObjectBuilder.createNestedObjects`: a no-op unless some key of
the first row contains a dot. -/
def createNestedObjects (data : List NRow) : List NRow :=
  match data with
  | [] => []
  | sampleRow :: _ =>
    if sampleRow.any (fun e => e.1.contains '.') then data.map processRowForNesting
    else data

/-! ## Excel header extraction (`src/parsers/excel-parser.ts`) -/

/-- A worksheet as the decoder presents it: a partial map from (row,
column) to the cell value `cell.v` (only the value matters to header
extraction). -/
abbrev Worksheet := Nat → Nat → Option JSValue

/-- The decoded `!ref` range of a worksheet. -/
structure SheetRange where
  startRow : Nat
  startCol : Nat
  endRow : Nat
  endCol : Nat

/-- The part of the normalized conversion configuration that header
extraction reads.  `normalizeConfiguration` always installs a header
transformer (identity by default), so the `transformHeaderWithFallback`
branch of `extractHeadersFromRow` is never taken on a normalized
configuration. -/
structure ExcelHeaderConfig where
  headerRowIndex : Option Nat
  headerTransformer : JStr → JStr

/-- JS truthiness of a cell value (`cell && cell.v`). -/
def cellTruthy (v : JSValue) : Bool :=
  match v with
  | .null => false
  | .undef => false
  | .bool b => b
  | .num (.fin q) => !(q = 0)
  | .num (.inf _) => true
  | .str s => !(s = [])
  | .date _ _ _ => true

/-- Decimal rendering of an integer. -/
def intToJStr (i : Int) : JStr := (Int.repr i).toList

/-- JS `String(v)` for the cell values the pipeline feeds through header
extraction (strings, booleans, `null`/`undefined` and integer numbers
exactly as V8 prints them; non-integral numbers are rendered as
`num/den`, a stand-in that is never reached by the claims checked here,
whose header cells are strings). -/
def jsToString (v : JSValue) : JStr :=
  match v with
  | .str s => s
  | .bool b => if b then js "true" else js "false"
  | .null => js "null"
  | .undef => js "undefined"
  | .num (.fin q) => if q.den = 1 then intToJStr q.num else intToJStr q.num ++ '/' :: natToJStr q.den
  | .num (.inf b) => if b then js "Infinity" else js "-Infinity"
  | .date y m d => js "Date(" ++ natToJStr y ++ '-' :: natToJStr m ++ '-' :: natToJStr d ++ js ")"

/-- The columns of a range, in order. -/
def colRange (range : SheetRange) : List Nat :=
  List.range' range.startCol (range.endCol + 1 - range.startCol)

/-- `ExcelParser.extractHeadersFromRow`: for each column of the range, a
truthy cell whose transformed text is nonempty contributes a header, keyed
by its column. -/
def extractHeadersFromRow (worksheet : Worksheet) (range : SheetRange) (rowIndex : Nat)
    (config : ExcelHeaderConfig) : List (Nat × JStr) :=
  (colRange range).filterMap (fun col =>
    match worksheet rowIndex col with
    | some v =>
      if cellTruthy v then
        let headerValue := config.headerTransformer (jsToString v)
        if !(headerValue = []) then some (col, headerValue) else none
      else none
    | none => none)

/-- The column-letter pattern `^[A-Z]{1,2}$` of `extractHeaders`. -/
def isColumnLetterHeader (s : JStr) : Bool :=
  match s with
  | [c] => 'A' ≤ c ∧ c ≤ 'Z'
  | [c, d] => ('A' ≤ c ∧ c ≤ 'Z') ∧ ('A' ≤ d ∧ d ≤ 'Z')
  | _ => false

/-- The `columnLetterCount / headerValues.length > 0.7` test of
`extractHeaders`, as an exact comparison (for the at-most-16384 columns of
a sheet the double-precision comparison agrees with the exact one). -/
def mostlyColumnLetters (headerValues : List JStr) : Bool :=
  0 < headerValues.length ∧
    7 * headerValues.length < 10 * (headerValues.filter isColumnLetterHeader).length

/-- `ExcelParser.extractHeaders`: extract at the configured row; when the
headers are mostly bare column letters and a next row exists inside the
range, re-extract there. -/
def extractHeaders (worksheet : Worksheet) (range : SheetRange) (headerRowIndex : Nat)
    (config : ExcelHeaderConfig) : List (Nat × JStr) × Bool :=
  let headers := extractHeadersFromRow worksheet range headerRowIndex config
  let headerValues := headers.map (fun e => e.2)
  if mostlyColumnLetters headerValues then
    if headerRowIndex + 1 ≤ range.endRow then
      (extractHeadersFromRow worksheet range (headerRowIndex + 1) config, true)
    else (headers, false)
  else (headers, false)

/-- `ExcelParser.processWorksheetHeaders`: no configured header row means
no headers and data from row 0; otherwise data starts right after the row
the headers were finally taken from. -/
def processWorksheetHeaders (worksheet : Worksheet) (range : SheetRange)
    (config : ExcelHeaderConfig) : List (Nat × JStr) × Nat :=
  match config.headerRowIndex with
  | none => ([], 0)
  | some headerRowIndex =>
    let result := extractHeaders worksheet range headerRowIndex config
    let baseStartRow := headerRowIndex + 1
    (result.1, if result.2 then baseStartRow + 1 else baseStartRow)

/-! ## Result shaping (`src/core/spreadsheet-converter.ts`) -/

/-- `sheetSelection` after configuration normalization. -/
inductive SheetSelection where
  | all
  | first
  | names (l : List JStr)
  | indices (l : List Int)
  deriving DecidableEq

/-- `SpreadsheetConverter.selectTargetSheets` (with
`processArraySelection`): `all` keeps every sheet, `first` the first,
name lists intersect with the available names, index lists keep in-range
indices. -/
def selectTargetSheets (selection : SheetSelection) (availableSheets : List JStr) : List JStr :=
  match selection with
  | .all => availableSheets
  | .first => availableSheets.take 1
  | .names l => l.filter (fun name => availableSheets.contains name)
  | .indices l =>
    ((l.filter (fun i => 0 ≤ i ∧ i < (availableSheets.length : Int))).map
      (fun i => availableSheets.getD i.toNat []))

/-- A processed sheet: its name and its rows. -/
abbrev ProcessedSheet := JStr × List Row

/-- The result shape: a plain array of rows, or a mapping keyed by sheet
name. -/
abbrev ConversionData := List Row ⊕ List (JStr × List Row)

/-- `SpreadsheetConverter.createConversionResult` (data part): a plain
array when the selection is `first` or exactly one sheet was processed,
otherwise a name-keyed mapping. -/
def createConversionResult (selection : SheetSelection)
    (processedSheets : List ProcessedSheet) : ConversionData :=
  if selection = .first ∨ processedSheets.length = 1 then
    .inl ((processedSheets.headD ([], [])).2)
  else
    .inr processedSheets

/-! ## Claim C1: CSV type-inference decision order -/

/-- The spec's reading of rule 4 of §4.1: a date shape must denote a valid
calendar day (no overflow) to produce a date. -/
def specStrictDateParse (s : JStr) : Option (Nat × Nat × Nat) :=
  if matchesIsoDate s then
    let y := digitsToNat (s.take 4)
    let m := digitsToNat ((s.drop 5).take 2)
    let d := digitsToNat ((s.drop 8).take 2)
    if 1 ≤ m ∧ m ≤ 12 ∧ 1 ≤ d ∧ d ≤ daysInMonth y m then some (y, m, d) else none
  else if matchesUsSlashDate s ∨ matchesShortSlashDate s then
    match splitOnChar '/' s with
    | [ms, ds, ys] =>
      let m := digitsToNat ms
      let d := digitsToNat ds
      let y := digitsToNat ys
      if 1 ≤ m ∧ m ≤ 12 ∧ 1 ≤ d ∧ d ≤ daysInMonth y m then some (y, m, d) else none
    | _ => none
  else if matchesUsDashDate s then
    match splitOnChar '-' s with
    | [ms, ds, ys] =>
      let m := digitsToNat ms
      let d := digitsToNat ds
      let y := digitsToNat ys
      if 1 ≤ m ∧ m ≤ 12 ∧ 1 ≤ d ∧ d ≤ daysInMonth y m then some (y, m, d) else none
    | _ => none
  else none

/-- Claim C1 as stated: first-match-wins cascade with the strict
valid-calendar-date reading of the date rule. -/
def inferClaimC1 (value : JStr) : JSValue :=
  let t := jsTrim value
  if t = [] then .null
  else if ALL_BOOLEAN_VALUES.contains (jsToLower t) then
    .bool (TRUE_VALUES.contains (jsToLower t))
  else if (jsNumberParse t).isSome then .num ((jsNumberParse t).getD (.fin 0))
  else
    match specStrictDateParse t with
    | some (y, m, d) => .date y m d
    | none => .str t

/-- Claim C1 amended: the date rule accepts exactly the shape-matching
strings that JS `new Date` accepts — strict calendar validity for
`YYYY-MM-DD`, month 1–12 and day 1–31 with day overflow rolling into the
next month for the slash/dash US shapes. -/
def inferAmendedC1 (value : JStr) : JSValue :=
  let t := jsTrim value
  if t = [] then .null
  else if ALL_BOOLEAN_VALUES.contains (jsToLower t) then
    .bool (TRUE_VALUES.contains (jsToLower t))
  else if (jsNumberParse t).isSome then .num ((jsNumberParse t).getD (.fin 0))
  else if looksLikeDate t then
    match jsDateParse t with
    | some (y, m, d) => .date y m d
    | none => .str t
  else .str t

/-! ## Claim C2: delimiter detection, spec-side definitions -/

/-- "Highest-scoring candidate wins; ties keep the first encountered" on
the four candidate scores, in candidate order comma, semicolon, tab,
pipe. -/
def firstMaxDelimiter (s1 s2 s3 s4 : ℚ) : JStr :=
  let m := max (max (max s1 s2) s3) s4
  if s1 = m then js ","
  else if s2 = m then js ";"
  else if s3 = m then js "\t"
  else js "|"

/-- Claim C2 as stated: sample the *first at most 10 non-blank lines* of
the content, return comma when fewer than 2 exist, otherwise the
first-encountered highest-scoring candidate. -/
def detectDelimiterClaimC2 (config : CsvConfig) (content : JStr) : JStr :=
  let sampleLines :=
    ((splitOnChar '\n' content).filter (fun line => !(jsTrim line = []))).take 10
  if sampleLines.length < 2 then js ","
  else
    firstMaxDelimiter
      (calculateDelimiterScore config.quoteCharacter sampleLines (js ","))
      (calculateDelimiterScore config.quoteCharacter sampleLines (js ";"))
      (calculateDelimiterScore config.quoteCharacter sampleLines (js "\t"))
      (calculateDelimiterScore config.quoteCharacter sampleLines (js "|"))

/-- Claim C2 amended: the sample is the *non-blank lines among the first
10 lines* (the code slices before it filters); the rest is as claimed. -/
def detectDelimiterSpecC2 (config : CsvConfig) (content : JStr) : JStr :=
  let sampleLines :=
    ((splitOnChar '\n' content).take 10).filter (fun line => !(jsTrim line = []))
  if sampleLines.length < 2 then js ","
  else
    firstMaxDelimiter
      (calculateDelimiterScore config.quoteCharacter sampleLines (js ","))
      (calculateDelimiterScore config.quoteCharacter sampleLines (js ";"))
      (calculateDelimiterScore config.quoteCharacter sampleLines (js "\t"))
      (calculateDelimiterScore config.quoteCharacter sampleLines (js "|"))

/-! ## Claim C3: header uniquification, spec-side definition -/

/-- The claim's description of `ensureUniqueHeaders`: walking the list
with the already-processed prefix `done`, the first occurrence of a
normalization class is kept unmodified and the `k`-th later occurrence
gets `_k` appended, `k` being the number of earlier occurrences of the
same class. -/
def specUniqueHeaders (done : List JStr) : List JStr → List JStr
  | [] => []
  | header :: rest =>
    let count := done.countP
      (fun h2 => normalizeHeaderForProcessing h2 = normalizeHeaderForProcessing header)
    (if count = 0 then header else header ++ '_' :: natToJStr count) ::
      specUniqueHeaders (done ++ [header]) rest

/-! ## Claim C4: row-retention predicate, spec-side definitions -/

/-- The claim's index-field test: the key is purely numeric, a single
uppercase letter, or one of index/row/rownum/rownumber/# case-insensitively,
and the value is a positive integer. -/
def specLooksLikeIndexC4 (key : JStr) (value : JSValue) : Bool :=
  ((!(key = []) ∧ key.all isDigitChar) ||
   (match key with | [c] => 'A' ≤ c ∧ c ≤ 'Z' | _ => false) ||
   commonIndexNames.contains (jsToLower key)) &&
  (match value with
   | .num (.fin q) => q.den = 1 ∧ 0 < q
   | _ => false)

/-- The claim's retention test: at least 2 meaningful (non-null/non-blank)
fields, or exactly 1 meaningful field whose key/value pair does not look
like an incidental index. -/
def specRetainC4 (row : Row) : Bool :=
  let meaningful := getNonEmptyEntries row
  (2 ≤ meaningful.length : Bool) ||
    (match meaningful with
     | [(key, value)] => !(specLooksLikeIndexC4 key value)
     | _ => false)

/-! ## Claim C6: column-letter header recovery, spec-side definitions -/

/-- Claim C6 amended: when more than 70% of the first-pass headers are
bare 1–2 letter tokens *and the next row is still inside the used range*,
headers come from the next row and data starts at `headerRowIndex + 2`;
otherwise the first pass stands and data starts at `headerRowIndex + 1`. -/
def specHeadersC6 (worksheet : Worksheet) (range : SheetRange) (headerRowIndex : Nat)
    (config : ExcelHeaderConfig) : List (Nat × JStr) × Nat :=
  let firstPass := extractHeadersFromRow worksheet range headerRowIndex config
  if mostlyColumnLetters (firstPass.map (fun e => e.2)) ∧ headerRowIndex + 1 ≤ range.endRow then
    (extractHeadersFromRow worksheet range (headerRowIndex + 1) config, headerRowIndex + 2)
  else (firstPass, headerRowIndex + 1)

/-- A one-row worksheet whose only row holds the column-letter strings
`A`, `B` (the shape that triggers the misexport heuristic with no next
row to fall back to). -/
def letterOnlySheet : Worksheet := fun r c =>
  if r = 0 ∧ c = 0 then some (.str (js "A"))
  else if r = 0 ∧ c = 1 then some (.str (js "B"))
  else none

/-- A two-row worksheet: column letters on row 0, real headers on row 1. -/
def letterThenNamesSheet : Worksheet := fun r c =>
  if r = 0 ∧ c = 0 then some (.str (js "A"))
  else if r = 0 ∧ c = 1 then some (.str (js "B"))
  else if r = 1 ∧ c = 0 then some (.str (js "Name"))
  else if r = 1 ∧ c = 1 then some (.str (js "Age"))
  else none

/-- Header configuration with header row 0 and the identity transformer
(the default installed by `normalizeConfiguration`). -/
def headerRow0Config : ExcelHeaderConfig :=
  { headerRowIndex := some 0, headerTransformer := fun h => h }

/-! ## Claim C9: flattening and its well-formed domain -/

/-- A key fit for dot-notation flattening: no embedded dot (which would
corrupt the joined path) and not purely numeric (which would make the
rebuild create an array instead of an object). -/
def keyOk (k : JStr) : Bool := !(k.contains '.') && !(isNumericSegment k)

/-- Join a path into a dot-notation key. -/
def joinPath (p : List JStr) : JStr := joinWithChar '.' p

mutual

/-- Flatten a nested value under a path prefix into (path, primitive)
pairs (spec-side definition of dot-notation flattening; arrays are
outside the object-only domain and contribute nothing). -/
def flattenVal (pre : List JStr) : NVal → List (List JStr × JSValue)
  | .prim v => [(pre, v)]
  | .arr _ => []
  | .obj entries => flattenObj pre entries

/-- Flatten a record's entries under a path prefix. -/
def flattenObj (pre : List JStr) : List (JStr × NVal) → List (List JStr × JSValue)
  | [] => []
  | (k, v) :: rest => flattenVal (pre ++ [k]) v ++ flattenObj pre rest

end

/-- Flatten a nested row to a flat row with dot-notation keys. -/
def flattenRow (row : NRow) : NRow :=
  (flattenObj [] row).map (fun pv => (joinPath pv.1, .prim pv.2))

/-- The object-only well-formed values of claim C9: primitives, and
nonempty records with unique flattening-fit keys and well-formed
children. -/
inductive WfVal : NVal → Prop where
  | prim (v : JSValue) : WfVal (.prim v)
  | obj (entries : List (JStr × NVal))
      (hne : entries ≠ [])
      (hnd : (entries.map Prod.fst).Nodup)
      (hkeys : ∀ e ∈ entries, keyOk e.1 = true)
      (hvals : ∀ e ∈ entries, WfVal e.2) : WfVal (.obj entries)

/-- A well-formed nested row: unique flattening-fit keys and well-formed
values (the row itself may be empty). -/
def WfRow (row : NRow) : Prop :=
  (row.map Prod.fst).Nodup ∧ (∀ e ∈ row, keyOk e.1 = true) ∧ ∀ e ∈ row, WfVal e.2

/-- One step of `processRowForNesting`, expressed on (path, value) pairs. -/
def buildStep (r : NRow) (pv : List JStr × JSValue) : NRow :=
  setNestedValue r pv.1 (.prim pv.2)

/-- Fold `buildStep` over a flattened entry list. -/
def buildList (R : NRow) (L : List (List JStr × JSValue)) : NRow :=
  L.foldl buildStep R

/-! ## Theorems -/

/-- `countFieldsInLine` always reports at least one field. -/
theorem countFieldsInLine_pos (q : JStr) (line : JStr) (d : JStr) :
    1 ≤ countFieldsInLine q line d := by
  unfold countFieldsInLine
  suffices h : ∀ (l : JStr) (acc : Nat × Bool), 1 ≤ acc.1 →
      1 ≤ (l.foldl (fun (acc : Nat × Bool) c =>
        if [c] = q then (acc.1, !acc.2)
        else if [c] = d ∧ !acc.2 then (acc.1 + 1, acc.2)
        else acc) acc).1 by
    exact h line (1, false) le_rfl
  intro l
  induction l with
  | nil => intro acc h; exact h
  | cons c t ih =>
    intro acc h
    rw [List.foldl_cons]
    split_ifs
    · exact ih _ h
    · exact ih _ (Nat.le_succ_of_le h)
    · exact ih _ h

/-- The running sum of the mean computation dominates the length when
every count is at least 1. -/
theorem foldl_sum_ge_length (counts : List Nat) (a : Nat)
    (h : ∀ c ∈ counts, 1 ≤ c) :
    a + counts.length ≤ counts.foldl (fun sum c => sum + c) a := by
  induction counts generalizing a with
  | nil => simp
  | cons c t ih =>
    simp only [List.foldl_cons, List.length_cons]
    have h1 : 1 ≤ c := h c (by simp)
    have h2 := ih (a + c) (fun x hx => h x (by simp [hx]))
    omega

/-- A candidate score is strictly positive whenever there are at least two
sampled lines (every line has at least one field, so the mean is at least
1 and the richness term contributes at least 3/50). -/
theorem scoreOfCounts_pos (counts : List Nat) (hlen : 2 ≤ counts.length)
    (hc : ∀ c ∈ counts, 1 ≤ c) : 0 < scoreOfCounts counts := by
  have hsum : counts.length ≤ counts.foldl (fun sum c => sum + c) 0 := by
    have := foldl_sum_ge_length counts 0 hc
    omega
  simp only [scoreOfCounts]
  rw [if_neg (by omega)]
  have hlenQ : (0 : ℚ) < (counts.length : ℚ) := by positivity
  have hmean : (1 : ℚ) ≤ ((counts.foldl (fun sum c => sum + c) 0 : Nat) : ℚ) / (counts.length : ℚ) := by
    rw [le_div_iff₀ hlenQ]
    rw [one_mul]
    exact_mod_cast hsum
  set mean : ℚ := ((counts.foldl (fun sum c => sum + c) 0 : Nat) : ℚ) / (counts.length : ℚ) with hm
  set variance : ℚ :=
    (counts.foldl (fun sum c => sum + ((c : ℚ) - mean) ^ 2) 0) / (counts.length : ℚ) with hv
  have hcons : (0 : ℚ) ≤ (if mean > 1 then max 0 (1 - variance / mean) else 0) := by
    split_ifs
    · exact le_max_left 0 _
    · exact le_refl 0
  have hrich : (1 : ℚ) / 5 ≤ min 1 (mean / 5) := by
    apply le_min
    · norm_num
    · linarith
  have h1 : (0 : ℚ) ≤ (if mean > 1 then max 0 (1 - variance / mean) else 0) * (7 / 10) :=
    mul_nonneg hcons (by norm_num)
  have h2 : (1 : ℚ) / 5 * (3 / 10) ≤ min 1 (mean / 5) * (3 / 10) :=
    mul_le_mul_of_nonneg_right hrich (by norm_num)
  linarith

/-- `firstMaxDelimiter` picks comma when comma's score is maximal. -/
theorem firstMax_comma {s1 s2 s3 s4 : ℚ} (h2 : s2 ≤ s1) (h3 : s3 ≤ s1) (h4 : s4 ≤ s1) :
    firstMaxDelimiter s1 s2 s3 s4 = js "," := by
  simp only [firstMaxDelimiter]
  have hm : max (max (max s1 s2) s3) s4 = s1 := by
    rw [max_eq_left h2, max_eq_left h3, max_eq_left h4]
  rw [hm, if_pos rfl]

/-- `firstMaxDelimiter` picks semicolon when it strictly beats comma and
is maximal. -/
theorem firstMax_semicolon {s1 s2 s3 s4 : ℚ} (h1 : s1 < s2) (h3 : s3 ≤ s2) (h4 : s4 ≤ s2) :
    firstMaxDelimiter s1 s2 s3 s4 = js ";" := by
  simp only [firstMaxDelimiter]
  have hm : max (max (max s1 s2) s3) s4 = s2 := by
    rw [max_eq_right (le_of_lt h1), max_eq_left h3, max_eq_left h4]
  rw [hm, if_neg (by intro h; rw [h] at h1; exact lt_irrefl s2 h1), if_pos rfl]

/-- `firstMaxDelimiter` picks tab when it strictly beats comma and
semicolon and is maximal. -/
theorem firstMax_tab {s1 s2 s3 s4 : ℚ} (h1 : s1 < s3) (h2 : s2 < s3) (h4 : s4 ≤ s3) :
    firstMaxDelimiter s1 s2 s3 s4 = js "\t" := by
  simp only [firstMaxDelimiter]
  have hm : max (max (max s1 s2) s3) s4 = s3 := by
    rw [max_eq_right (le_of_lt (max_lt h1 h2)), max_eq_left h4]
  rw [hm, if_neg (by intro h; rw [h] at h1; exact lt_irrefl s3 h1),
    if_neg (by intro h; rw [h] at h2; exact lt_irrefl s3 h2), if_pos rfl]

/-- `firstMaxDelimiter` picks pipe when it strictly beats the others. -/
theorem firstMax_pipe {s1 s2 s3 s4 : ℚ} (h1 : s1 < s4) (h2 : s2 < s4) (h3 : s3 < s4) :
    firstMaxDelimiter s1 s2 s3 s4 = js "|" := by
  simp only [firstMaxDelimiter]
  have hm : max (max (max s1 s2) s3) s4 = s4 :=
    max_eq_right (le_of_lt (max_lt (max_lt h1 h2) h3))
  rw [hm, if_neg (by intro h; rw [h] at h1; exact lt_irrefl s4 h1),
    if_neg (by intro h; rw [h] at h2; exact lt_irrefl s4 h2),
    if_neg (by intro h; rw [h] at h3; exact lt_irrefl s4 h3)]

/-- The best-score fold of `detectOptimalDelimiter` picks the first
candidate attaining the maximal score, provided every score is positive. -/
theorem foldBest_eq_firstMax (f : JStr → ℚ)
    (h1 : 0 < f (js ",")) :
    (commonDelimiters.foldl
      (fun (best : JStr × ℚ) delimiter =>
        if f delimiter > best.2 then (delimiter, f delimiter) else best)
      (js ",", 0)).1
      = firstMaxDelimiter (f (js ",")) (f (js ";")) (f (js "\t")) (f (js "|")) := by
  set s1 := f (js ",") with hs1
  set s2 := f (js ";") with hs2
  set s3 := f (js "\t") with hs3
  set s4 := f (js "|") with hs4
  simp only [commonDelimiters, List.foldl_cons, List.foldl_nil, ← hs1, ← hs2, ← hs3, ← hs4]
  rw [if_pos (show s1 > 0 from h1)]
  by_cases c2 : s2 > s1
  · rw [if_pos c2]
    by_cases c3 : s3 > s2
    · rw [if_pos c3]
      by_cases c4 : s4 > s3
      · rw [if_pos c4]
        exact (firstMax_pipe (by linarith) (by linarith) c4).symm
      · rw [if_neg c4]
        exact (firstMax_tab (by linarith) c3 (le_of_not_lt c4)).symm
    · rw [if_neg c3]
      by_cases c4 : s4 > s2
      · rw [if_pos c4]
        exact (firstMax_pipe (by linarith) c4 (by linarith [le_of_not_lt c3])).symm
      · rw [if_neg c4]
        exact (firstMax_semicolon c2 (le_of_not_lt c3) (le_of_not_lt c4)).symm
  · rw [if_neg c2]
    by_cases c3 : s3 > s1
    · rw [if_pos c3]
      by_cases c4 : s4 > s3
      · rw [if_pos c4]
        exact (firstMax_pipe (by linarith) (by linarith [le_of_not_lt c2]) c4).symm
      · rw [if_neg c4]
        exact (firstMax_tab c3 (by linarith [le_of_not_lt c2]) (le_of_not_lt c4)).symm
    · rw [if_neg c3]
      by_cases c4 : s4 > s1
      · rw [if_pos c4]
        exact (firstMax_pipe c4 (by linarith [le_of_not_lt c2]) (by linarith [le_of_not_lt c3])).symm
      · rw [if_neg c4]
        exact (firstMax_comma (le_of_not_lt c2) (le_of_not_lt c3) (le_of_not_lt c4)).symm

/-- `detectOptimalDelimiter` agrees everywhere with the
filter-inside-first-10, first-maximum specification
`detectDelimiterSpecC2`. -/
theorem detect_eq_spec (config : CsvConfig) (content : JStr) :
    detectOptimalDelimiter config content = detectDelimiterSpecC2 config content := by
  simp only [detectOptimalDelimiter, detectDelimiterSpecC2]
  set lines := ((splitOnChar '\n' content).take 10).filter (fun line => !(jsTrim line = []))
    with hl
  by_cases h : lines.length < 2
  · rw [if_pos h, if_pos h]
  · rw [if_neg h, if_neg h]
    have hpos : 0 < calculateDelimiterScore config.quoteCharacter lines (js ",") := by
      apply scoreOfCounts_pos
      · simp only [List.length_map]; omega
      · intro c hc
        obtain ⟨line, _, rfl⟩ := List.mem_map.mp hc
        exact countFieldsInLine_pos _ _ _
    exact foldBest_eq_firstMax (calculateDelimiterScore config.quoteCharacter lines) hpos

/-- Score of two one-field lines. -/
theorem scoreOfCounts_ones2 : scoreOfCounts [1, 1] = 3 / 50 := by
  norm_num [scoreOfCounts, List.foldl, min_def, max_def]

/-- Score of three one-field lines. -/
theorem scoreOfCounts_ones3 : scoreOfCounts [1, 1, 1] = 3 / 50 := by
  norm_num [scoreOfCounts, List.foldl, min_def, max_def]

/-- Score of two two-field lines. -/
theorem scoreOfCounts_twos2 : scoreOfCounts [2, 2] = 41 / 50 := by
  norm_num [scoreOfCounts, List.foldl, min_def, max_def]

/-- Score of three two-field lines. -/
theorem scoreOfCounts_twos3 : scoreOfCounts [2, 2, 2] = 41 / 50 := by
  norm_num [scoreOfCounts, List.foldl, min_def, max_def]

/-- Score of three three-field lines. -/
theorem scoreOfCounts_threes3 : scoreOfCounts [3, 3, 3] = 22 / 25 := by
  norm_num [scoreOfCounts, List.foldl, min_def, max_def]

/-- Score of a three-field line over a one-field line. -/
theorem scoreOfCounts_31 : scoreOfCounts [3, 1] = 47 / 100 := by
  norm_num [scoreOfCounts, List.foldl, min_def, max_def]

/-- Score of a one-field line over a two-field line. -/
theorem scoreOfCounts_12 : scoreOfCounts [1, 2] = 101 / 150 := by
  norm_num [scoreOfCounts, List.foldl, min_def, max_def]

/-- Concrete-sample evaluation: comma is detected when its score is
positive and at least every other candidate's. -/
theorem detect_eval_comma (config : CsvConfig) (content : JStr) (lines : List JStr)
    (s1 s2 s3 s4 : ℚ)
    (hl : ((splitOnChar '\n' content).take 10).filter (fun line => !(jsTrim line = [])) = lines)
    (hlen : ¬lines.length < 2)
    (e1 : calculateDelimiterScore config.quoteCharacter lines (js ",") = s1)
    (e2 : calculateDelimiterScore config.quoteCharacter lines (js ";") = s2)
    (e3 : calculateDelimiterScore config.quoteCharacter lines (js "\t") = s3)
    (e4 : calculateDelimiterScore config.quoteCharacter lines (js "|") = s4)
    (h2 : s2 ≤ s1) (h3 : s3 ≤ s1) (h4 : s4 ≤ s1) :
    detectOptimalDelimiter config content = js "," := by
  rw [detect_eq_spec]
  simp only [detectDelimiterSpecC2, hl]
  rw [if_neg hlen, e1, e2, e3, e4]
  exact firstMax_comma h2 h3 h4

/-- Evaluates `decLitVal` on a plain digit string. -/
theorem decLitVal_digits (s : JStr) (n : Nat) (h : digitsToNat (s ++ []) = n) :
    decLitVal false s [] 0 = n := by
  rw [List.append_nil] at h
  simp [decLitVal, h]

/-- Claim C2, counterexample: the spec says the sample is the first ≤10
*non-blank* lines, but the code filters blanks only after slicing the
first 10 raw lines.  On content opening with ten blank lines followed by
a two-line semicolon CSV, the code sees no sample and falls back to
comma, while the claimed procedure sees the two semicolon lines and
returns semicolon. -/
theorem claim_C2_counterexample :
    detectOptimalDelimiter defaultCsvConfig (js "\n\n\n\n\n\n\n\n\n\na;b\n1;2") = js "," ∧
    detectDelimiterClaimC2 defaultCsvConfig (js "\n\n\n\n\n\n\n\n\n\na;b\n1;2") = js ";" ∧
    detectOptimalDelimiter defaultCsvConfig (js "\n\n\n\n\n\n\n\n\n\na;b\n1;2") ≠
      detectDelimiterClaimC2 defaultCsvConfig (js "\n\n\n\n\n\n\n\n\n\na;b\n1;2") := by
  have hclaim :
      detectDelimiterClaimC2 defaultCsvConfig (js "\n\n\n\n\n\n\n\n\n\na;b\n1;2") = js ";" := by
    have hl : (((splitOnChar '\n' (js "\n\n\n\n\n\n\n\n\n\na;b\n1;2")).filter
        (fun line => !(jsTrim line = []))).take 10) = [js "a;b", js "1;2"] := by decide
    simp only [detectDelimiterClaimC2, hl]
    rw [if_neg (by norm_num)]
    have e1 : calculateDelimiterScore defaultCsvConfig.quoteCharacter [js "a;b", js "1;2"]
        (js ",") = 3 / 50 := by
      have hm : [js "a;b", js "1;2"].map
          (fun line => countFieldsInLine defaultCsvConfig.quoteCharacter line (js ",")) =
          [1, 1] := by decide
      rw [calculateDelimiterScore, hm, scoreOfCounts_ones2]
    have e2 : calculateDelimiterScore defaultCsvConfig.quoteCharacter [js "a;b", js "1;2"]
        (js ";") = 41 / 50 := by
      have hm : [js "a;b", js "1;2"].map
          (fun line => countFieldsInLine defaultCsvConfig.quoteCharacter line (js ";")) =
          [2, 2] := by decide
      rw [calculateDelimiterScore, hm, scoreOfCounts_twos2]
    have e3 : calculateDelimiterScore defaultCsvConfig.quoteCharacter [js "a;b", js "1;2"]
        (js "\t") = 3 / 50 := by
      have hm : [js "a;b", js "1;2"].map
          (fun line => countFieldsInLine defaultCsvConfig.quoteCharacter line (js "\t")) =
          [1, 1] := by decide
      rw [calculateDelimiterScore, hm, scoreOfCounts_ones2]
    have e4 : calculateDelimiterScore defaultCsvConfig.quoteCharacter [js "a;b", js "1;2"]
        (js "|") = 3 / 50 := by
      have hm : [js "a;b", js "1;2"].map
          (fun line => countFieldsInLine defaultCsvConfig.quoteCharacter line (js "|")) =
          [1, 1] := by decide
      rw [calculateDelimiterScore, hm, scoreOfCounts_ones2]
    rw [e1, e2, e3, e4]
    exact firstMax_semicolon (by norm_num) (by norm_num) (by norm_num)
  refine ⟨by decide, hclaim, ?_⟩
  rw [hclaim, show detectOptimalDelimiter defaultCsvConfig
    (js "\n\n\n\n\n\n\n\n\n\na;b\n1;2") = js "," from by decide]
  decide

/-- Claim C2 (amended): delimiter detection samples the non-blank lines
among the first 10 lines (the code slices, then filters); with fewer than
2 it returns comma, otherwise the first-encountered candidate of maximal
score 0.7×consistency + 0.3×richness; on `"a,b,c\n1,2,3\n4,5,6"` it
returns comma. -/
theorem claim_C2 :
    (∀ config content,
      detectOptimalDelimiter config content = detectDelimiterSpecC2 config content) ∧
    detectOptimalDelimiter defaultCsvConfig (js "a,b,c\n1,2,3\n4,5,6") = js "," := by
  refine ⟨detect_eq_spec, ?_⟩
  apply detect_eval_comma defaultCsvConfig _ [js "a,b,c", js "1,2,3", js "4,5,6"]
    (22 / 25) (3 / 50) (3 / 50) (3 / 50)
  · decide
  · norm_num
  · have hm : [js "a,b,c", js "1,2,3", js "4,5,6"].map
        (fun line => countFieldsInLine defaultCsvConfig.quoteCharacter line (js ",")) =
        [3, 3, 3] := by decide
    rw [calculateDelimiterScore, hm, scoreOfCounts_threes3]
  · have hm : [js "a,b,c", js "1,2,3", js "4,5,6"].map
        (fun line => countFieldsInLine defaultCsvConfig.quoteCharacter line (js ";")) =
        [1, 1, 1] := by decide
    rw [calculateDelimiterScore, hm, scoreOfCounts_ones3]
  · have hm : [js "a,b,c", js "1,2,3", js "4,5,6"].map
        (fun line => countFieldsInLine defaultCsvConfig.quoteCharacter line (js "\t")) =
        [1, 1, 1] := by decide
    rw [calculateDelimiterScore, hm, scoreOfCounts_ones3]
  · have hm : [js "a,b,c", js "1,2,3", js "4,5,6"].map
        (fun line => countFieldsInLine defaultCsvConfig.quoteCharacter line (js "|")) =
        [1, 1, 1] := by decide
    rw [calculateDelimiterScore, hm, scoreOfCounts_ones3]
  · norm_num
  · norm_num
  · norm_num

/-- Claim C1, counterexample: `"02/31/2024"` matches the `MM/DD/YYYY`
shape but denotes no valid calendar date, so the claim as stated yields
the trimmed string; the code's `new Date("02/31/2024")` is a valid Date
(March 2 2024, by day roll-over) and the code yields a date value. -/
theorem claim_C1_counterexample :
    inferAndConvertType (js "02/31/2024") = .date 2024 3 2 ∧
    inferClaimC1 (js "02/31/2024") = .str (js "02/31/2024") ∧
    inferAndConvertType (js "02/31/2024") ≠ inferClaimC1 (js "02/31/2024") := by
  refine ⟨by decide, by decide, by decide⟩

/-- Claim C1 (amended): type inference is the first-match-wins cascade
empty→null, boolean token→boolean, numeric literal→number, date-shaped
string accepted by JS date parsing (strict for `YYYY-MM-DD`, day
roll-over for the US shapes)→date, otherwise the trimmed string; in
particular `"2024"` is the number 2024 and CSV `"a,b\n1,yes\n2,no"`
parses to `[{a:1,b:true},{a:2,b:false}]`. -/
theorem claim_C1 :
    (∀ value, inferAndConvertType value = inferAmendedC1 value) ∧
    inferAndConvertType (js "2024") = .num (.fin 2024) ∧
    (parse defaultCsvConfig (js "a,b\n1,yes\n2,no")).1 =
      .ok [[(js "a", .num (.fin 1)), (js "b", .bool true)],
           [(js "a", .num (.fin 2)), (js "b", .bool false)]] := by
  refine ⟨fun value => ?_, ?_, ?_⟩
  · simp only [inferAndConvertType, inferAmendedC1, looksLikeDate]
    cases hn : jsNumberParse (jsTrim value) with
    | some n => simp [hn]
    | none => simp only [hn, Option.isSome_none, Bool.false_eq_true, if_false]
  · have h1 : inferAndConvertType (js "2024") =
        .num (.fin (decLitVal false (js "2024") [] 0)) := rfl
    rw [h1, decLitVal_digits (js "2024") 2024 (by decide)]
    norm_num
  · have hdet : detectOptimalDelimiter defaultCsvConfig (js "a,b\n1,yes\n2,no") = js "," := by
      apply detect_eval_comma defaultCsvConfig _ [js "a,b", js "1,yes", js "2,no"]
        (41 / 50) (3 / 50) (3 / 50) (3 / 50)
      · decide
      · norm_num
      · have hm : [js "a,b", js "1,yes", js "2,no"].map
            (fun line => countFieldsInLine defaultCsvConfig.quoteCharacter line (js ",")) =
            [2, 2, 2] := by decide
        rw [calculateDelimiterScore, hm, scoreOfCounts_twos3]
      · have hm : [js "a,b", js "1,yes", js "2,no"].map
            (fun line => countFieldsInLine defaultCsvConfig.quoteCharacter line (js ";")) =
            [1, 1, 1] := by decide
        rw [calculateDelimiterScore, hm, scoreOfCounts_ones3]
      · have hm : [js "a,b", js "1,yes", js "2,no"].map
            (fun line => countFieldsInLine defaultCsvConfig.quoteCharacter line (js "\t")) =
            [1, 1, 1] := by decide
        rw [calculateDelimiterScore, hm, scoreOfCounts_ones3]
      · have hm : [js "a,b", js "1,yes", js "2,no"].map
            (fun line => countFieldsInLine defaultCsvConfig.quoteCharacter line (js "|")) =
            [1, 1, 1] := by decide
        rw [calculateDelimiterScore, hm, scoreOfCounts_ones3]
      · norm_num
      · norm_num
      · norm_num
    have hrows : parseCsvInternal
        { defaultCsvConfig with fieldDelimiter := js "," } (js "a,b\n1,yes\n2,no") =
        [[(js "a", .num (.fin (decLitVal false (js "1") [] 0))), (js "b", .bool true)],
         [(js "a", .num (.fin (decLitVal false (js "2") [] 0))), (js "b", .bool false)]] := by
      rfl
    simp only [parse]
    rw [if_neg (show ¬(js "a,b\n1,yes\n2,no" = []) from by decide)]
    rw [if_pos (show defaultCsvConfig.fieldDelimiter = [] from rfl)]
    simp only [hdet]
    rw [hrows, decLitVal_digits (js "1") 1 (by decide), decLitVal_digits (js "2") 2 (by decide)]
    norm_num

/-- The fold of `ensureUniqueHeaders` with any seen-map consistent with
the processed prefix continues as `specUniqueHeaders`. -/
theorem ensureUnique_fold_eq_spec (headers : List JStr) :
    ∀ (done : List JStr) (acc : List JStr) (seen : JStr → Nat),
    (∀ k, seen k = done.countP (fun h2 => normalizeHeaderForProcessing h2 = k)) →
    (headers.foldl
      (fun (acc2 : (JStr → Nat) × List JStr) header =>
        let normalizedHeader := normalizeHeaderForProcessing header
        let count := acc2.1 normalizedHeader
        let seen2 := fun k => if k = normalizedHeader then count + 1 else acc2.1 k
        let uniqueHeader := if count = 0 then header else header ++ '_' :: natToJStr count
        (seen2, acc2.2 ++ [uniqueHeader]))
      (seen, acc)).2 = acc ++ specUniqueHeaders done headers := by
  induction headers with
  | nil => intro done acc seen hseen; simp [specUniqueHeaders]
  | cons header rest ih =>
    intro done acc seen hseen
    rw [List.foldl_cons]
    have hcount : seen (normalizeHeaderForProcessing header) =
        done.countP (fun h2 =>
          normalizeHeaderForProcessing h2 = normalizeHeaderForProcessing header) :=
      hseen _
    have hnext : ∀ k, (fun k => if k = normalizeHeaderForProcessing header then
        seen (normalizeHeaderForProcessing header) + 1 else seen k) k =
        (done ++ [header]).countP (fun h2 => normalizeHeaderForProcessing h2 = k) := by
      intro k
      show (if k = normalizeHeaderForProcessing header then
        seen (normalizeHeaderForProcessing header) + 1 else seen k) = _
      rw [List.countP_append]
      by_cases hk : k = normalizeHeaderForProcessing header
      · subst hk
        simp only [if_pos rfl, hcount, List.countP_cons, List.countP_nil]
        simp
      · rw [if_neg hk, hseen k]
        have hne : ¬(normalizeHeaderForProcessing header = k) := fun h => hk h.symm
        have : List.countP (fun h2 => decide (normalizeHeaderForProcessing h2 = k)) [header] = 0 := by
          simp [hne]
        omega
    rw [ih (done ++ [header]) _ _ hnext]
    simp only [specUniqueHeaders, hcount]
    rw [List.append_assoc]
    rfl

/-- Claim C3, counterexample: on `['a','a_1','a']` the third header gets
the suffix `_1` and collides with the second, so the output does contain
two identical keys. -/
theorem claim_C3_counterexample :
    ensureUniqueHeaders [js "a", js "a_1", js "a"] = [js "a", js "a_1", js "a_1"] ∧
    ¬(ensureUniqueHeaders [js "a", js "a_1", js "a"]).Nodup := by
  refine ⟨by decide, by decide⟩

/-- Claim C3 (amended): `ensureUniqueHeaders` keeps the first occurrence
of each normalization class unmodified and appends `_<occurrenceIndex>`
to later occurrences; `['name','name']` becomes `['name','name_1']`, with
no duplicate keys in that output.  (The no-two-identical-keys guarantee
is not universal: a raw header equal to another occurrence's suffixed
form can collide, see the counterexample.) -/
theorem claim_C3 :
    (∀ headers, ensureUniqueHeaders headers = specUniqueHeaders [] headers) ∧
    ensureUniqueHeaders [js "name", js "name"] = [js "name", js "name_1"] ∧
    (ensureUniqueHeaders [js "name", js "name"]).Nodup := by
  refine ⟨fun headers => ?_, by decide, by decide⟩
  have h := ensureUnique_fold_eq_spec headers [] [] (fun _ => 0) (by simp)
  simpa [ensureUniqueHeaders] using h

/-- Claim C4 (confirmed): with skipEmptyRows on and index-only rows
ignored, the retained rows are exactly those with ≥2 meaningful fields or
a single meaningful non-index field; `{A: 3}` is dropped while
`{name: 3}` survives cleaning. -/
theorem claim_C4 :
    (∀ row, hasNonEmptyValue row true = specRetainC4 row) ∧
    (∀ data, cleanDataset data true false true =
      if data.length = 0 then data else data.filter (fun row => specRetainC4 row)) ∧
    cleanDataset [[(js "A", .num (.fin 3))], [(js "name", .num (.fin 3))]] true true true =
      [[(js "name", .num (.fin 3))]] := by
  have hpred : ∀ row, hasNonEmptyValue row true = specRetainC4 row := by
    intro row
    simp only [hasNonEmptyValue, specRetainC4, specLooksLikeIndexC4, isLikelyIndexColumn]
    cases hne : getNonEmptyEntries row with
    | nil => simp
    | cons e rest =>
      cases rest with
      | nil =>
        rcases e with ⟨key, value⟩
        simp
      | cons e2 rest2 => simp [List.length_cons]
  refine ⟨hpred, fun data => ?_, by decide⟩
  simp only [cleanDataset]
  by_cases h : data.length = 0
  · rw [if_pos h, if_pos h]
  · rw [if_neg h, if_neg h]
    have heq : (data.filter (fun row => hasNonEmptyValue row true)) =
        data.filter (fun row => specRetainC4 row) :=
      List.filter_congr (fun row _ => hpred row)
    simp [heq]

/-- Claim C5, counterexample: the selection `'all'` is a multi-sheet
selection, yet on a workbook with a single sheet the code returns the
plain array, not a name-keyed mapping. -/
theorem claim_C5_counterexample :
    selectTargetSheets .all [js "Sheet1"] = [js "Sheet1"] ∧
    createConversionResult .all [(js "Sheet1", [[(js "a", .num (.fin 1))]])] =
      .inl [[(js "a", .num (.fin 1))]] ∧
    ∀ m, createConversionResult .all [(js "Sheet1", [[(js "a", .num (.fin 1))]])] ≠ .inr m := by
  have hshape : createConversionResult .all [(js "Sheet1", [[(js "a", .num (.fin 1))]])] =
      .inl [[(js "a", .num (.fin 1))]] := by decide
  refine ⟨by decide, hshape, fun m h => ?_⟩
  rw [hshape] at h
  exact Sum.noConfusion h

/-- Claim C5 (amended): the result is a plain array exactly when the
selection is `'first'` or exactly one sheet was processed; otherwise it
is the mapping keyed by sheet name.  On two processed sheets, `'all'`
yields the name-keyed mapping and `'first'` the first sheet's array. -/
theorem claim_C5 :
    (∀ selection sheets, (∃ rows, createConversionResult selection sheets = .inl rows) ↔
      (selection = .first ∨ sheets.length = 1)) ∧
    (∀ selection sheets, createConversionResult selection sheets = .inr sheets ↔
      ¬(selection = .first ∨ sheets.length = 1)) ∧
    createConversionResult .all
        [(js "Sheet1", [[(js "a", .null)]]), (js "Sheet2", [])] =
      .inr [(js "Sheet1", [[(js "a", .null)]]), (js "Sheet2", [])] ∧
    createConversionResult .first
        [(js "Sheet1", [[(js "a", .null)]]), (js "Sheet2", [])] =
      .inl [[(js "a", .null)]] := by
  refine ⟨fun selection sheets => ?_, fun selection sheets => ?_, by decide, by decide⟩
  · simp only [createConversionResult]
    by_cases h : selection = .first ∨ sheets.length = 1
    · rw [if_pos h]
      exact ⟨fun _ => h, fun _ => ⟨_, rfl⟩⟩
    · rw [if_neg h]
      exact ⟨fun ⟨rows, hr⟩ => Sum.noConfusion hr, fun hc => absurd hc h⟩
  · simp only [createConversionResult]
    by_cases h : selection = .first ∨ sheets.length = 1
    · rw [if_pos h]
      exact ⟨fun hr => Sum.noConfusion hr, fun hc => absurd h hc⟩
    · rw [if_neg h]
      exact ⟨fun _ => h, fun _ => rfl⟩

/-- Claim C6, counterexample: with the header row at the bottom of the
used range, a 100%-column-letter header row triggers the heuristic but
there is no next row, so the code keeps the first pass and starts data at
`headerRowIndex + 1`, not `+ 2` as the claim requires. -/
theorem claim_C6_counterexample :
    mostlyColumnLetters
      ((extractHeadersFromRow letterOnlySheet ⟨0, 0, 0, 1⟩ 0 headerRow0Config).map
        (fun e => e.2)) = true ∧
    processWorksheetHeaders letterOnlySheet ⟨0, 0, 0, 1⟩ headerRow0Config =
      ([(0, js "A"), (1, js "B")], 1) ∧
    (1 : Nat) ≠ 0 + 2 := by
  refine ⟨by decide, by decide, by decide⟩

/-- Claim C6 (amended): with a configured header row, the 70%
column-letter test discards the first header pass and re-resolves from
the next row with data starting at `headerRowIndex + 2` exactly when that
next row lies inside the used range; otherwise the first pass stands and
data starts at `headerRowIndex + 1`.  On a two-row sheet with letters
above real headers, data starts two rows down. -/
theorem claim_C6 :
    (∀ (worksheet : Worksheet) (range : SheetRange) (headerRowIndex : Nat)
      (transformer : JStr → JStr),
      processWorksheetHeaders worksheet range
        { headerRowIndex := some headerRowIndex, headerTransformer := transformer } =
      specHeadersC6 worksheet range headerRowIndex
        { headerRowIndex := some headerRowIndex, headerTransformer := transformer }) ∧
    processWorksheetHeaders letterThenNamesSheet ⟨0, 0, 1, 1⟩ headerRow0Config =
      ([(0, js "Name"), (1, js "Age")], 2) := by
  refine ⟨fun worksheet range headerRowIndex transformer => ?_, by decide⟩
  simp only [processWorksheetHeaders, extractHeaders, specHeadersC6]
  by_cases h1 : mostlyColumnLetters
      ((extractHeadersFromRow worksheet range headerRowIndex
        { headerRowIndex := some headerRowIndex, headerTransformer := transformer }).map
        (fun e => e.2)) = true
  · by_cases h2 : headerRowIndex + 1 ≤ range.endRow
    · simp [h1, h2]
    · simp [h1, h2]
  · by_cases h2 : headerRowIndex + 1 ≤ range.endRow
    · simp [h1, h2]
    · simp [h1, h2]

/-- Every entry of `jsSet row k v` either has key `k` or was already in
the row. -/
theorem jsSet_mem (row : Row) (k : JStr) (v : JSValue) :
    ∀ e ∈ jsSet row k v, e.1 = k ∨ e ∈ row := by
  intro e he
  simp only [jsSet] at he
  split at he
  · obtain ⟨e0, he0, heq⟩ := List.mem_map.mp he
    by_cases hk : e0.1 = k
    · rw [if_pos hk] at heq
      left
      rw [← heq]
    · rw [if_neg hk] at heq
      right
      rw [← heq]
      exact he0
  · rcases List.mem_append.mp he with h | h
    · right; exact h
    · left
      rw [List.mem_singleton.mp h]

/-- Every key of a row produced by the header loop of `parseCsvInternal`
is one of the parsed headers. -/
theorem parseCsvInternal_keys (config : CsvConfig) (content : JStr) :
    ∀ row ∈ parseCsvInternal config content, ∀ e ∈ row, e.1 ∈ csvHeaders config content := by
  intro row hrow e he
  simp only [parseCsvInternal, csvHeaders] at *
  cases hl : retainedCsvLines config content with
  | nil => rw [hl] at hrow; simp at hrow
  | cons headerLine dataLines =>
    rw [hl] at hrow
    simp only at hrow
    obtain ⟨line, _, rfl⟩ := List.mem_map.mp hrow
    set headers := parseLineFields headerLine config.fieldDelimiter config.quoteCharacter
      config.escapeCharacter config.shouldTrimFields with hh
    set fields := parseLineFields line config.fieldDelimiter config.quoteCharacter
      config.escapeCharacter config.shouldTrimFields with hf
    suffices hkey : ∀ (idxs : List Nat) (row0 : Row), (∀ j ∈ idxs, j < headers.length) →
        (∀ e2 ∈ row0, e2.1 ∈ headers) →
        ∀ e2 ∈ idxs.foldl
          (fun row j => jsSet row (headers.getD j []) (inferAndConvertType (fields.getD j [])))
          row0, e2.1 ∈ headers by
      exact hkey (List.range headers.length) []
        (fun j hj => List.mem_range.mp hj) (by simp) e he
    intro idxs
    induction idxs with
    | nil => intro row0 _ h0 e2 he2; exact h0 e2 he2
    | cons j rest ih =>
      intro row0 hlt h0 e2 he2
      rw [List.foldl_cons] at he2
      refine ih _ (fun i hi => hlt i (List.mem_cons_of_mem j hi)) ?_ e2 he2
      intro e3 he3
      rcases jsSet_mem row0 (headers.getD j []) (inferAndConvertType (fields.getD j [])) e3 he3
        with h | h
      · rw [h]
        have hj : j < headers.length := hlt j (List.mem_cons_self j rest)
        rw [List.getD_eq_getElem?_getD, List.getElem?_eq_getElem hj]
        exact List.getElem_mem hj
      · exact h0 e3 h

/-- Claim C7 (confirmed): `parse` raises its invalid-content error exactly
on empty content and otherwise returns rows; a header-only CSV yields
`[]`; short data rows pad the missing positions with null; extra fields
beyond the header count never introduce keys. -/
theorem claim_C7 :
    (∀ config content,
      (parse config content).1 = .error (js "Invalid CSV content provided") ↔ content = []) ∧
    (∀ config content, (∃ rows, (parse config content).1 = .ok rows) ↔ content ≠ []) ∧
    (parse defaultCsvConfig (js "a,b")).1 = .ok [] ∧
    (parse defaultCsvConfig (js "a,b,c\n1")).1 =
      .ok [[(js "a", .num (.fin 1)), (js "b", .null), (js "c", .null)]] ∧
    (parse defaultCsvConfig (js "a\n1,2")).1 = .ok [[(js "a", .num (.fin 1))]] ∧
    (∀ config content, ∀ row ∈ parseCsvInternal config content,
      ∀ e ∈ row, e.1 ∈ csvHeaders config content) := by
  refine ⟨fun config content => ?_, fun config content => ?_, rfl, ?_, ?_,
    parseCsvInternal_keys⟩
  · simp only [parse]
    by_cases h : content = []
    · rw [if_pos h]
      exact ⟨fun _ => h, fun _ => rfl⟩
    · rw [if_neg h]
      exact ⟨fun hc => Except.noConfusion hc, fun hc => absurd hc h⟩
  · simp only [parse]
    by_cases h : content = []
    · rw [if_pos h]
      exact ⟨fun ⟨rows, hr⟩ => Except.noConfusion hr, fun hc => absurd h hc⟩
    · rw [if_neg h]
      exact ⟨fun _ => h, fun _ => ⟨_, rfl⟩⟩
  · have hdet : detectOptimalDelimiter defaultCsvConfig (js "a,b,c\n1") = js "," := by
      apply detect_eval_comma defaultCsvConfig _ [js "a,b,c", js "1"]
        (47 / 100) (3 / 50) (3 / 50) (3 / 50)
      · decide
      · norm_num
      · have hm : [js "a,b,c", js "1"].map
            (fun line => countFieldsInLine defaultCsvConfig.quoteCharacter line (js ",")) =
            [3, 1] := by decide
        rw [calculateDelimiterScore, hm, scoreOfCounts_31]
      · have hm : [js "a,b,c", js "1"].map
            (fun line => countFieldsInLine defaultCsvConfig.quoteCharacter line (js ";")) =
            [1, 1] := by decide
        rw [calculateDelimiterScore, hm, scoreOfCounts_ones2]
      · have hm : [js "a,b,c", js "1"].map
            (fun line => countFieldsInLine defaultCsvConfig.quoteCharacter line (js "\t")) =
            [1, 1] := by decide
        rw [calculateDelimiterScore, hm, scoreOfCounts_ones2]
      · have hm : [js "a,b,c", js "1"].map
            (fun line => countFieldsInLine defaultCsvConfig.quoteCharacter line (js "|")) =
            [1, 1] := by decide
        rw [calculateDelimiterScore, hm, scoreOfCounts_ones2]
      · norm_num
      · norm_num
      · norm_num
    have hrows : parseCsvInternal
        { defaultCsvConfig with fieldDelimiter := js "," } (js "a,b,c\n1") =
        [[(js "a", .num (.fin (decLitVal false (js "1") [] 0))), (js "b", .null),
          (js "c", .null)]] := rfl
    simp only [parse]
    rw [if_neg (show ¬(js "a,b,c\n1" = []) from by decide)]
    rw [if_pos (show defaultCsvConfig.fieldDelimiter = [] from rfl)]
    simp only [hdet]
    rw [hrows, decLitVal_digits (js "1") 1 (by decide)]
    norm_num
  · have hdet : detectOptimalDelimiter defaultCsvConfig (js "a\n1,2") = js "," := by
      apply detect_eval_comma defaultCsvConfig _ [js "a", js "1,2"]
        (101 / 150) (3 / 50) (3 / 50) (3 / 50)
      · decide
      · norm_num
      · have hm : [js "a", js "1,2"].map
            (fun line => countFieldsInLine defaultCsvConfig.quoteCharacter line (js ",")) =
            [1, 2] := by decide
        rw [calculateDelimiterScore, hm, scoreOfCounts_12]
      · have hm : [js "a", js "1,2"].map
            (fun line => countFieldsInLine defaultCsvConfig.quoteCharacter line (js ";")) =
            [1, 1] := by decide
        rw [calculateDelimiterScore, hm, scoreOfCounts_ones2]
      · have hm : [js "a", js "1,2"].map
            (fun line => countFieldsInLine defaultCsvConfig.quoteCharacter line (js "\t")) =
            [1, 1] := by decide
        rw [calculateDelimiterScore, hm, scoreOfCounts_ones2]
      · have hm : [js "a", js "1,2"].map
            (fun line => countFieldsInLine defaultCsvConfig.quoteCharacter line (js "|")) =
            [1, 1] := by decide
        rw [calculateDelimiterScore, hm, scoreOfCounts_ones2]
      · norm_num
      · norm_num
      · norm_num
    have hrows : parseCsvInternal
        { defaultCsvConfig with fieldDelimiter := js "," } (js "a\n1,2") =
        [[(js "a", .num (.fin (decLitVal false (js "1") [] 0)))]] := rfl
    simp only [parse]
    rw [if_neg (show ¬(js "a\n1,2" = []) from by decide)]
    rw [if_pos (show defaultCsvConfig.fieldDelimiter = [] from rfl)]
    simp only [hdet]
    rw [hrows, decLitVal_digits (js "1") 1 (by decide)]
    norm_num

/-- Applies claim C7's key-containment clause at a concrete record. -/
theorem claim_C7_witness :
    (js "a", JSValue.str (js "x")).1 ∈
      csvHeaders { defaultCsvConfig with fieldDelimiter := js "," } (js "a\nx") := by
  have hrows : parseCsvInternal
      { defaultCsvConfig with fieldDelimiter := js "," } (js "a\nx") =
      [[(js "a", .str (js "x"))]] := rfl
  exact claim_C7.2.2.2.2.2 { defaultCsvConfig with fieldDelimiter := js "," } (js "a\nx")
    [(js "a", .str (js "x"))] (by rw [hrows]; exact List.mem_singleton.mpr rfl)
    (js "a", .str (js "x")) (List.mem_singleton.mpr rfl)

/-- Delimiter detection always returns a nonempty delimiter (one of the
four candidates). -/
theorem detectOptimalDelimiter_ne_nil (config : CsvConfig) (content : JStr) :
    detectOptimalDelimiter config content ≠ [] := by
  rw [detect_eq_spec]
  simp only [detectDelimiterSpecC2, firstMaxDelimiter]
  split_ifs <;> decide

/-- Claim C10 (confirmed): a parser built without a delimiter stores the
delimiter detected on its first successful parse into its own
configuration; every later parse reuses that stored delimiter, never
re-detecting, so a second input in another dialect is still split by the
first-detected delimiter.  Concretely, after parsing a comma CSV the same
instance splits `"a;b\nx;y"` on commas, producing the single-column row
`{"a;b": "x;y"}`. -/
theorem claim_C10 :
    (∀ config c1 c2, config.fieldDelimiter = [] → ¬c1 = [] →
      (parse config c1).2.fieldDelimiter = detectOptimalDelimiter config c1 ∧
      ¬(parse config c1).2.fieldDelimiter = [] ∧
      (parse (parse config c1).2 c2).2 = (parse config c1).2 ∧
      (¬c2 = [] → (parse (parse config c1).2 c2).1 =
        .ok (parseCsvInternal (parse config c1).2 c2))) ∧
    (parse (parse defaultCsvConfig (js "a,b\n1,2")).2 (js "a;b\nx;y")).1 =
      .ok [[(js "a;b", .str (js "x;y"))]] := by
  have hgen : ∀ config c1 c2, config.fieldDelimiter = [] → ¬c1 = [] →
      (parse config c1).2.fieldDelimiter = detectOptimalDelimiter config c1 ∧
      ¬(parse config c1).2.fieldDelimiter = [] ∧
      (parse (parse config c1).2 c2).2 = (parse config c1).2 ∧
      (¬c2 = [] → (parse (parse config c1).2 c2).1 =
        .ok (parseCsvInternal (parse config c1).2 c2)) := by
    intro config c1 c2 hdelim h1
    have hp1 : parse config c1 =
        (.ok (parseCsvInternal
          { config with fieldDelimiter := detectOptimalDelimiter config c1 } c1),
         { config with fieldDelimiter := detectOptimalDelimiter config c1 }) := by
      simp only [parse]
      rw [if_neg h1, if_pos hdelim]
    rw [hp1]
    refine ⟨rfl, detectOptimalDelimiter_ne_nil config c1, ?_, ?_⟩
    · simp only [parse]
      by_cases h2 : c2 = []
      · rw [if_pos h2]
      · rw [if_neg h2, if_neg (detectOptimalDelimiter_ne_nil config c1)]
    · intro h2
      simp only [parse]
      rw [if_neg h2, if_neg (detectOptimalDelimiter_ne_nil config c1)]
  refine ⟨hgen, ?_⟩
  have hdet : detectOptimalDelimiter defaultCsvConfig (js "a,b\n1,2") = js "," := by
    apply detect_eval_comma defaultCsvConfig _ [js "a,b", js "1,2"]
      (41 / 50) (3 / 50) (3 / 50) (3 / 50)
    · decide
    · norm_num
    · have hm : [js "a,b", js "1,2"].map
          (fun line => countFieldsInLine defaultCsvConfig.quoteCharacter line (js ",")) =
          [2, 2] := by decide
      rw [calculateDelimiterScore, hm, scoreOfCounts_twos2]
    · have hm : [js "a,b", js "1,2"].map
          (fun line => countFieldsInLine defaultCsvConfig.quoteCharacter line (js ";")) =
          [1, 1] := by decide
      rw [calculateDelimiterScore, hm, scoreOfCounts_ones2]
    · have hm : [js "a,b", js "1,2"].map
          (fun line => countFieldsInLine defaultCsvConfig.quoteCharacter line (js "\t")) =
          [1, 1] := by decide
      rw [calculateDelimiterScore, hm, scoreOfCounts_ones2]
    · have hm : [js "a,b", js "1,2"].map
          (fun line => countFieldsInLine defaultCsvConfig.quoteCharacter line (js "|")) =
          [1, 1] := by decide
      rw [calculateDelimiterScore, hm, scoreOfCounts_ones2]
    · norm_num
    · norm_num
    · norm_num
  have hp1 : (parse defaultCsvConfig (js "a,b\n1,2")).2 =
      { defaultCsvConfig with fieldDelimiter := js "," } := by
    simp only [parse]
    rw [if_neg (show ¬(js "a,b\n1,2" = []) from by decide)]
    rw [if_pos (show defaultCsvConfig.fieldDelimiter = [] from rfl)]
    simp only [hdet]
  rw [hp1]
  rfl

/-- Applies claim C10 at a comma CSV followed by a semicolon CSV. -/
theorem claim_C10_witness :
    defaultCsvConfig.fieldDelimiter = [] ∧ ¬(js "a,b\n1,2" = []) ∧
    ((parse defaultCsvConfig (js "a,b\n1,2")).2.fieldDelimiter =
      detectOptimalDelimiter defaultCsvConfig (js "a,b\n1,2") ∧
     ¬(parse defaultCsvConfig (js "a,b\n1,2")).2.fieldDelimiter = [] ∧
     (parse (parse defaultCsvConfig (js "a,b\n1,2")).2 (js "a;b\nx;y")).2 =
       (parse defaultCsvConfig (js "a,b\n1,2")).2 ∧
     (¬(js "a;b\nx;y" = []) →
       (parse (parse defaultCsvConfig (js "a,b\n1,2")).2 (js "a;b\nx;y")).1 =
         .ok (parseCsvInternal (parse defaultCsvConfig (js "a,b\n1,2")).2 (js "a;b\nx;y")))) :=
  ⟨rfl, by decide,
   claim_C10.1 defaultCsvConfig (js "a,b\n1,2") (js "a;b\nx;y") rfl (by decide)⟩

/-- On a record with unique keys, `row[key]` of a present entry is that
entry's value. -/
theorem jsGet_eq_of_mem (row : Row) (e : JStr × JSValue)
    (hnd : (row.map Prod.fst).Nodup) (he : e ∈ row) : jsGet row e.1 = e.2 := by
  induction row with
  | nil => cases he
  | cons f t ih =>
    simp only [List.map_cons, List.nodup_cons] at hnd
    rcases List.mem_cons.mp he with rfl | hmem
    · simp [jsGet, List.find?]
    · have hne : ¬(f.1 = e.1) := by
        intro hk
        exact hnd.1 (hk ▸ List.mem_map.mpr ⟨e, hmem, rfl⟩)
      simp only [jsGet, List.find?_cons, decide_eq_false hne]
      exact ih hnd.2 hmem

/-- Dropping entries whose values are not meaningful anyway does not
change the meaningful entries of a row. -/
theorem getNonEmptyEntries_project (cols : List JStr) (row : Row)
    (h : ∀ e ∈ row, cols.contains e.1 → isNonEmptyValue e.2 = false) :
    getNonEmptyEntries (projectRow cols row) = getNonEmptyEntries row := by
  simp only [getNonEmptyEntries, projectRow]
  induction row with
  | nil => rfl
  | cons f t ih =>
    have hf := h f (List.mem_cons_self f t)
    have ht : ∀ e ∈ t, cols.contains e.1 → isNonEmptyValue e.2 = false :=
      fun e he => h e (List.mem_cons_of_mem f he)
    by_cases hc : cols.contains f.1
    · have hnotne : isNonEmptyValue f.2 = false := hf hc
      simp only [List.filter_cons, hc, hnotne]
      simpa using ih ht
    · simp only [List.filter_cons, hc]
      by_cases hne : isNonEmptyValue f.2
      · simp only [Bool.not_false, if_pos, hne, if_true]
        simp only [List.filter_cons, hne, if_true]
        rw [ih ht]
      · simp only [Bool.not_false, if_pos]
        simp only [List.filter_cons, hne]
        simpa using ih ht

/-- Row emptiness is invariant under dropping empty-everywhere columns. -/
theorem hasNonEmptyValue_project (cols : List JStr) (row : Row) (ig : Bool)
    (h : ∀ e ∈ row, cols.contains e.1 → isNonEmptyValue e.2 = false) :
    hasNonEmptyValue (projectRow cols row) ig = hasNonEmptyValue row ig := by
  simp only [hasNonEmptyValue, getNonEmptyEntries_project cols row h]

/-- Projection away from a key set keeps lookups of other keys. -/
theorem jsGet_project_of_not_mem (cols : List JStr) (row : Row) (k : JStr)
    (hk : ¬cols.contains k = true) : jsGet (projectRow cols row) k = jsGet row k := by
  simp only [jsGet, projectRow]
  induction row with
  | nil => rfl
  | cons f t ih =>
    by_cases hc : cols.contains f.1
    · have hne : ¬(f.1 = k) := fun hfk => hk (hfk ▸ hc)
      simp only [List.filter_cons, hc, Bool.not_true, Bool.false_eq_true, if_false,
        List.find?_cons, decide_eq_false hne]
      exact ih
    · simp only [List.filter_cons, hc, Bool.not_false, if_true, List.find?_cons]
      by_cases hfk : f.1 = k
      · simp only [decide_eq_true hfk]
      · simp only [decide_eq_false hfk]
        exact ih

/-- Membership in the first-occurrence deduplication. -/
theorem mem_dedupKeys (l : List JStr) (k : JStr) : k ∈ dedupKeys l ↔ k ∈ l := by
  suffices h : ∀ acc, k ∈ l.foldl
      (fun acc k2 => if acc.contains k2 then acc else acc ++ [k2]) acc ↔ k ∈ acc ∨ k ∈ l by
    simpa [dedupKeys] using h []
  induction l with
  | nil => intro acc; simp
  | cons x t ih =>
    intro acc
    rw [List.foldl_cons]
    by_cases hx : acc.contains x
    · rw [if_pos hx, ih acc]
      constructor
      · rintro (h | h)
        · exact Or.inl h
        · exact Or.inr (List.mem_cons_of_mem x h)
      · rintro (h | h)
        · exact Or.inl h
        · rcases List.mem_cons.mp h with rfl | h2
          · exact Or.inl (List.mem_of_elem_eq_true hx)
          · exact Or.inr h2
    · rw [if_neg hx, ih (acc ++ [x])]
      simp only [List.mem_append, List.mem_singleton, List.mem_cons]
      tauto

/-- The keys of a projected dataset have a meaningful occurrence, so the
second column scan finds nothing to drop. -/
theorem identifyEmptyColumns_project_nil (d1 : List Row) :
    identifyEmptyColumns (d1.map (projectRow (identifyEmptyColumns d1))) = [] := by
  set ec := identifyEmptyColumns d1 with hec
  rw [identifyEmptyColumns, List.filter_eq_nil_iff]
  intro k hk
  rw [mem_dedupKeys] at hk
  obtain ⟨row2, hrow2, hkrow2⟩ := List.mem_flatMap.mp hk
  obtain ⟨row, hrow, rfl⟩ := List.mem_map.mp hrow2
  obtain ⟨e, he, rfl⟩ := List.mem_map.mp hkrow2
  have heproj := he
  simp only [projectRow, List.mem_filter] at heproj
  have hknotec : ¬ec.contains e.1 = true := by
    intro hc
    rw [hc] at heproj
    exact absurd heproj.2 (by decide)
  have hkall : e.1 ∈ dedupKeys (d1.flatMap (fun row => row.map (fun e => e.1))) := by
    rw [mem_dedupKeys]
    exact List.mem_flatMap.mpr ⟨row, hrow, List.mem_map.mpr ⟨e, heproj.1, rfl⟩⟩
  have hany : d1.any (fun row => isNonEmptyValue (jsGet row e.1)) = true := by
    by_contra hnot
    have hmem : e.1 ∈ ec := by
      rw [hec, identifyEmptyColumns, List.mem_filter]
      exact ⟨hkall, by simp only [Bool.not_eq_true] at hnot; simp [hnot]⟩
    exact hknotec (List.elem_eq_true_of_mem hmem)
  obtain ⟨row0, hrow0, hmean⟩ := List.any_eq_true.mp hany
  have hproj : (d1.map (projectRow ec)).any
      (fun row => isNonEmptyValue (jsGet row e.1)) = true := by
    refine List.any_eq_true.mpr ⟨projectRow ec row0, List.mem_map.mpr ⟨row0, hrow0, rfl⟩, ?_⟩
    rw [jsGet_project_of_not_mem ec row0 e.1 hknotec]
    exact hmean
  simp [hproj]

/-- Closed form of `cleanDataset` with both skip flags on. -/
theorem cleanDataset_true_true (d : List Row) :
    cleanDataset d true true true =
      if d.length = 0 then d
      else
        let d1 := d.filter (fun row => hasNonEmptyValue row true)
        if 0 < d1.length then
          let ec := identifyEmptyColumns d1
          if 0 < ec.length then d1.map (projectRow ec) else d1
        else d1 := by
  simp only [cleanDataset]
  by_cases h0 : d.length = 0
  · simp [h0]
  · simp only [if_neg h0, if_true]
    by_cases h1 : 0 < (d.filter (fun row => hasNonEmptyValue row true)).length
    · simp [h1]
    · simp [h1]

/-- A column identified as empty has no meaningful value in any entry of
any retained row with unique keys. -/
theorem emptyColumns_entry_not_meaningful (d1 : List Row)
    (hnd : ∀ row ∈ d1, (row.map Prod.fst).Nodup) :
    ∀ row ∈ d1, ∀ e ∈ row, (identifyEmptyColumns d1).contains e.1 →
      isNonEmptyValue e.2 = false := by
  intro row hrow e he hc
  have hmem : e.1 ∈ identifyEmptyColumns d1 := List.mem_of_elem_eq_true hc
  rw [identifyEmptyColumns, List.mem_filter] at hmem
  have hnot := hmem.2
  simp only [Bool.not_eq_true'] at hnot
  have hrownot : isNonEmptyValue (jsGet row e.1) = false := by
    by_contra hcon
    simp only [Bool.not_eq_false] at hcon
    have : d1.any (fun row => isNonEmptyValue (jsGet row e.1)) = true :=
      List.any_eq_true.mpr ⟨row, hrow, hcon⟩
    rw [this] at hnot
    exact Bool.noConfusion hnot
  rw [jsGet_eq_of_mem row e (hnd row hrow) he] at hrownot
  exact hrownot

/-- Claim C8 (confirmed): `cleanDataset` with both skip flags on is
idempotent on datasets of well-formed records (unique keys per row, as JS
objects guarantee). -/
theorem claim_C8 :
    ∀ data : List Row, (∀ row ∈ data, (row.map Prod.fst).Nodup) →
      cleanDataset (cleanDataset data true true true) true true true =
        cleanDataset data true true true := by
  intro data hnd
  rw [cleanDataset_true_true data]
  by_cases h0 : data.length = 0
  · rw [if_pos h0, cleanDataset_true_true data, if_pos h0]
  · rw [if_neg h0]
    simp only
    set d1 := data.filter (fun row => hasNonEmptyValue row true) with hd1
    have hnd1 : ∀ row ∈ d1, (row.map Prod.fst).Nodup := by
      intro row hrow
      exact hnd row (List.mem_filter.mp hrow).1
    have hpass : ∀ row ∈ d1, hasNonEmptyValue row true = true := by
      intro row hrow
      exact (List.mem_filter.mp hrow).2
    by_cases h1 : 0 < d1.length
    · rw [if_pos h1]
      set ec := identifyEmptyColumns d1 with hec
      by_cases h2 : 0 < ec.length
      · rw [if_pos h2]
        set d2 := d1.map (projectRow ec) with hd2
        have hlen2 : ¬d2.length = 0 := by
          rw [hd2, List.length_map]
          omega
        have hpass2 : ∀ row2 ∈ d2, hasNonEmptyValue row2 true = true := by
          intro row2 hrow2
          obtain ⟨row, hrow, rfl⟩ := List.mem_map.mp (hd2 ▸ hrow2)
          rw [hasNonEmptyValue_project ec row true
            (fun e he hc => emptyColumns_entry_not_meaningful d1 hnd1 row hrow e he (hec ▸ hc))]
          exact hpass row hrow
        have hfilter2 : d2.filter (fun row => hasNonEmptyValue row true) = d2 :=
          List.filter_eq_self.mpr hpass2
        rw [cleanDataset_true_true d2, if_neg hlen2]
        simp only [hfilter2]
        rw [if_pos (by omega)]
        have hempty2 : identifyEmptyColumns d2 = [] := by
          rw [hd2, hec]
          exact identifyEmptyColumns_project_nil d1
        simp only [hempty2]
        rw [if_neg (by simp)]
      · rw [if_neg h2]
        have hlen1 : ¬d1.length = 0 := by omega
        have hfilter1 : d1.filter (fun row => hasNonEmptyValue row true) = d1 :=
          List.filter_eq_self.mpr hpass
        rw [cleanDataset_true_true d1, if_neg hlen1]
        simp only [hfilter1]
        rw [if_pos h1, if_neg (hec ▸ h2)]
    · rw [if_neg h1]
      have hnil : d1 = [] := by
        cases hln : d1.length with
        | zero => exact List.length_eq_zero.mp hln
        | succ n => rw [hln] at h1; omega
      rw [hnil, cleanDataset_true_true ([] : List Row), if_pos (show ([] : List Row).length = 0 from rfl)]

/-- Applies claim C8 at a concrete dataset with an empty-ish row and an
empty column. -/
theorem claim_C8_witness :
    (∀ row ∈ ([[(js "a", .str (js "x")), (js "b", .str (js ""))],
               [(js "a", .null), (js "b", .null)]] : List Row),
      (row.map Prod.fst).Nodup) ∧
    cleanDataset (cleanDataset [[(js "a", .str (js "x")), (js "b", .str (js ""))],
        [(js "a", .null), (js "b", .null)]] true true true) true true true =
      cleanDataset [[(js "a", .str (js "x")), (js "b", .str (js ""))],
        [(js "a", .null), (js "b", .null)]] true true true :=
  ⟨by decide,
   claim_C8 [[(js "a", .str (js "x")), (js "b", .str (js ""))],
     [(js "a", .null), (js "b", .null)]] (by decide)⟩

/-- A record has an entry for `k` exactly when `k` is among its keys. -/
theorem any_key_iff (O : NRow) (k : JStr) :
    O.any (fun e => e.1 = k) = true ↔ k ∈ O.map Prod.fst := by
  rw [List.any_eq_true]
  constructor
  · rintro ⟨e, he, hk⟩
    exact List.mem_map.mpr ⟨e, he, by simpa using hk⟩
  · rintro hk
    obtain ⟨e, he, hk2⟩ := List.mem_map.mp hk
    exact ⟨e, he, by simpa using hk2⟩

/-- Setting an absent key appends the pair. -/
theorem nSet_of_not_mem (O : NRow) (k : JStr) (v : NVal) (h : k ∉ O.map Prod.fst) :
    nSet O k v = O ++ [(k, v)] := by
  rw [nSet, if_neg]
  intro hc
  exact h ((any_key_iff O k).mp hc)

/-- Lookup after set at the same key. -/
theorem nGet_nSet_self (O : NRow) (k : JStr) (v : NVal) : nGet (nSet O k v) k = some v := by
  rw [nSet]
  by_cases h : O.any (fun e => e.1 = k) = true
  · rw [if_pos h]
    induction O with
    | nil => simp at h
    | cons f t ih =>
      by_cases hf : f.1 = k
      · simp [nGet, List.find?_cons, hf]
      · have ht : t.any (fun e => e.1 = k) = true := by
          rcases List.any_eq_true.mp h with ⟨e, he, hk⟩
          rcases List.mem_cons.mp he with rfl | he2
          · exact absurd (by simpa using hk) hf
          · exact List.any_eq_true.mpr ⟨e, he2, hk⟩
        simp only [List.map_cons, if_neg hf]
        rw [nGet, List.find?_cons]
        simp only [decide_eq_false hf]
        exact ih ht
  · rw [if_neg h]
    induction O with
    | nil => simp [nGet, List.find?]
    | cons f t ih =>
      have hf : ¬(f.1 = k) := by
        intro hk
        exact h (List.any_eq_true.mpr ⟨f, List.mem_cons_self f t, by simpa using hk⟩)
      have ht : ¬t.any (fun e => e.1 = k) = true := by
        intro hc
        rcases List.any_eq_true.mp hc with ⟨e, he, hk⟩
        exact h (List.any_eq_true.mpr ⟨e, List.mem_cons_of_mem f he, hk⟩)
      rw [List.cons_append, nGet, List.find?_cons]
      simp only [decide_eq_false hf]
      exact ih ht

/-- Two sets at the same key collapse to the last one. -/
theorem nSet_nSet_same (O : NRow) (k : JStr) (a b : NVal) :
    nSet (nSet O k a) k b = nSet O k b := by
  by_cases h : O.any (fun e => e.1 = k) = true
  · have e1 : nSet O k a = O.map (fun e => if e.1 = k then (k, a) else e) := by
      rw [nSet, if_pos h]
    have hany2 : (O.map (fun e => if e.1 = k then (k, a) else e)).any
        (fun e => e.1 = k) = true := by
      rcases List.any_eq_true.mp h with ⟨e, he, hk⟩
      refine List.any_eq_true.mpr ⟨if e.1 = k then (k, a) else e, List.mem_map.mpr ⟨e, he, rfl⟩, ?_⟩
      rw [if_pos (by simpa using hk)]
      simp
    rw [e1, nSet, if_pos hany2, nSet, if_pos h, List.map_map]
    apply List.map_congr_left
    intro e _
    by_cases he : e.1 = k
    · simp [he]
    · simp [he]
  · have e1 : nSet O k a = O ++ [(k, a)] := by
      rw [nSet, if_neg h]
    have hany2 : (O ++ [(k, a)]).any (fun e => e.1 = k) = true :=
      List.any_eq_true.mpr ⟨(k, a), List.mem_append_right O (List.mem_singleton.mpr rfl),
        by simp⟩
    rw [e1, nSet, if_pos hany2, nSet, if_neg h]
    rw [List.map_append]
    congr 1
    · have hid : ∀ e ∈ O, (if e.1 = k then (k, b) else e) = id e := by
        intro e he
        have hk : ¬ e.1 = k := fun hk =>
          h (List.any_eq_true.mpr ⟨e, he, by simpa using hk⟩)
        rw [if_neg hk]
        rfl
      exact (List.map_congr_left hid).trans (List.map_id O)
    · simp

/-- Setting a key to the value it already has is the identity on records
with unique keys. -/
theorem nSet_of_nGet_eq (O : NRow) (k : JStr) (v : NVal)
    (hnd : (O.map Prod.fst).Nodup) (h : nGet O k = some v) : nSet O k v = O := by
  induction O with
  | nil => simp [nGet, List.find?] at h
  | cons f t ih =>
    simp only [List.map_cons, List.nodup_cons] at hnd
    by_cases hf : f.1 = k
    · rw [nGet, List.find?_cons] at h
      simp only [decide_eq_true hf] at h
      have hv : f.2 = v := by simpa using h
      have hae : (f :: t).any (fun e => e.1 = k) = true :=
        List.any_eq_true.mpr ⟨f, List.mem_cons_self f t, by simpa using hf⟩
      rw [nSet, if_pos hae]
      simp only [List.map_cons, if_pos hf]
      have hmap : t.map (fun e => if e.1 = k then (k, v) else e) = t := by
        have hid : ∀ e ∈ t, (if e.1 = k then (k, v) else e) = id e := by
          intro e he
          have hk : ¬ e.1 = k := fun hk =>
            hnd.1 (List.mem_map.mpr ⟨e, he, hk.trans hf.symm⟩)
          rw [if_neg hk]
          rfl
        exact (List.map_congr_left hid).trans (List.map_id t)
      rw [hmap]
      have hfe : (k, v) = f := Prod.ext hf.symm hv.symm
      rw [hfe]
    · rw [nGet, List.find?_cons] at h
      simp only [decide_eq_false hf] at h
      have ht := ih hnd.2 h
      have hat : t.any (fun e => e.1 = k) = true := by
        obtain ⟨e, hfind, _⟩ := Option.map_eq_some'.mp h
        exact List.any_eq_true.mpr ⟨e, List.mem_of_find?_eq_some hfind,
          by simpa using List.find?_some hfind⟩
      have hae : (f :: t).any (fun e => e.1 = k) = true := by
        rcases List.any_eq_true.mp hat with ⟨e, he, hk⟩
        exact List.any_eq_true.mpr ⟨e, List.mem_cons_of_mem f he, hk⟩
      rw [nSet] at ht ⊢
      rw [if_pos hat] at ht
      rw [if_pos hae]
      simp only [List.map_cons, if_neg hf]
      rw [ht]


/-- A flattening-fit key contains no dot. -/
theorem keyOk_no_dot {k : JStr} (h : keyOk k = true) : k.contains '.' = false := by
  rw [keyOk, Bool.and_eq_true] at h
  simpa using h.1

/-- A flattening-fit key is not purely numeric. -/
theorem keyOk_not_numeric {k : JStr} (h : keyOk k = true) : isNumericSegment k = false := by
  rw [keyOk, Bool.and_eq_true] at h
  simpa using h.2

/-- A flattening-fit key does not have the dot as a member. -/
theorem keyOk_dot_not_mem {s : JStr} (h : keyOk s = true) : ('.' : Char) ∉ s := by
  have hc := keyOk_no_dot h
  simp [List.contains] at hc
  exact hc

/-- Joining a singleton path is the identity. -/
theorem joinPath_single (k : JStr) : joinPath [k] = k := rfl

/-- A joined path of length at least two contains the dot separator. -/
theorem joinPath_contains_dot (a b : JStr) (rest : List JStr) :
    (joinPath (a :: b :: rest)).contains '.' = true := by
  have hjoin : joinPath (a :: b :: rest) = a ++ '.' :: joinPath (b :: rest) := rfl
  rw [hjoin]
  exact List.elem_eq_true_of_mem (List.mem_append_right a (List.mem_cons_self _ _))

/-- Splitting a string that does not contain the separator yields that one
piece. -/
theorem splitOnChar_no_sep (sep : Char) (s : JStr) (h : sep ∉ s) :
    splitOnChar sep s = [s] := by
  induction s with
  | nil => rfl
  | cons c rest ih =>
    have hc : ¬(c = sep) := fun hc => h (hc ▸ List.mem_cons_self c rest)
    rw [splitOnChar, if_neg hc, ih (fun hm => h (List.mem_cons_of_mem c hm))]

/-- Splitting distributes over a separator-free piece followed by the
separator. -/
theorem splitOnChar_append (sep : Char) (a s : JStr) (h : sep ∉ a) :
    splitOnChar sep (a ++ sep :: s) = a :: splitOnChar sep s := by
  induction a with
  | nil => rw [List.nil_append, splitOnChar, if_pos rfl]
  | cons c t ih =>
    have hc : ¬(c = sep) := fun hc => h (hc ▸ List.mem_cons_self c t)
    rw [List.cons_append, splitOnChar, if_neg hc, ih (fun hm => h (List.mem_cons_of_mem c hm))]

/-- Splitting on dots inverts joining for nonempty dot-free paths. -/
theorem split_join (p : List JStr) (hne : p ≠ []) (h : ∀ s ∈ p, ('.' : Char) ∉ s) :
    splitOnChar '.' (joinPath p) = p := by
  induction p with
  | nil => exact absurd rfl hne
  | cons a q ih =>
    cases q with
    | nil => exact splitOnChar_no_sep '.' a (h a (List.mem_cons_self a []))
    | cons b r =>
      have hjoin : joinPath (a :: b :: r) = a ++ '.' :: joinPath (b :: r) := rfl
      rw [hjoin, splitOnChar_append '.' a _ (h a (List.mem_cons_self a _)),
        ih (by simp) (fun s hs => h s (List.mem_cons_of_mem a hs))]

/-- Lookup of a key absent from a record. -/
theorem nGet_none_of_not_mem (O : NRow) (k : JStr) (h : k ∉ O.map Prod.fst) :
    nGet O k = none := by
  induction O with
  | nil => rfl
  | cons f t ih =>
    have hf : ¬(f.1 = k) := fun hk => h (List.mem_map.mpr ⟨f, List.mem_cons_self f t, hk⟩)
    rw [nGet, List.find?_cons]
    simp only [decide_eq_false hf]
    exact ih (fun hm => h (List.mem_cons_of_mem f.1 hm))

/-- Lookup of a key just appended to a record that lacked it. -/
theorem nGet_append_single (O : NRow) (k : JStr) (x : NVal) (h : k ∉ O.map Prod.fst) :
    nGet (O ++ [(k, x)]) k = some x := by
  induction O with
  | nil => simp [nGet, List.find?]
  | cons f t ih =>
    have hf : ¬(f.1 = k) := fun hk => h (List.mem_map.mpr ⟨f, List.mem_cons_self f t, hk⟩)
    rw [List.cons_append, nGet, List.find?_cons]
    simp only [decide_eq_false hf]
    exact ih (fun hm => h (List.mem_cons_of_mem f.1 hm))

/-- Overwriting a key just appended to a record that lacked it. -/
theorem nSet_append_single (O : NRow) (k : JStr) (x y : NVal) (h : k ∉ O.map Prod.fst) :
    nSet (O ++ [(k, x)]) k y = O ++ [(k, y)] := by
  have hany : (O ++ [(k, x)]).any (fun e => e.1 = k) = true :=
    List.any_eq_true.mpr ⟨(k, x), List.mem_append_right O (List.mem_singleton.mpr rfl), by simp⟩
  rw [nSet, if_pos hany, List.map_append]
  congr 1
  · have hid : ∀ e ∈ O, (if e.1 = k then (k, y) else e) = id e := by
      intro e he
      have hk : ¬ e.1 = k := fun hk => h (List.mem_map.mpr ⟨e, he, hk⟩)
      rw [if_neg hk]
      rfl
    exact (List.map_congr_left hid).trans (List.map_id O)
  · simp

/-- The singleton-path case of `setNestedValue` is a plain assignment. -/
theorem snv_single (o : NRow) (k : JStr) (v : NVal) : setNestedValue o [k] v = nSet o k v := by
  rw [setNestedValue]

/-- Descending into a key that is absent creates a fresh object when the
next segment is not numeric. -/
theorem snv_step_absent (R : NRow) (k n : JStr) (rest : List JStr) (v : NVal)
    (hget : nGet R k = none) (hnum : isNumericSegment n = false) :
    setNestedValue R (k :: n :: rest) v = nSet R k (.obj (setNestedValue [] (n :: rest) v)) := by
  rw [setNestedValue, hget, hnum]
  rfl

/-- Descending into a key holding an object updates that object in place. -/
theorem snv_step_obj (R : NRow) (C : NRow) (k n : JStr) (rest : List JStr) (v : NVal)
    (hget : nGet R k = some (.obj C)) :
    setNestedValue R (k :: n :: rest) v = nSet R k (.obj (setNestedValue C (n :: rest) v)) := by
  rw [setNestedValue, hget]

/-- Inversion for well-formed object values. -/
theorem wfVal_obj_inv {entries : List (JStr × NVal)} (h : WfVal (.obj entries)) :
    entries ≠ [] ∧ (entries.map Prod.fst).Nodup ∧ (∀ e ∈ entries, keyOk e.1 = true) ∧
      ∀ e ∈ entries, WfVal e.2 := by
  cases h with
  | obj E hne hnd hks hvs => exact ⟨hne, hnd, hks, hvs⟩

/-- Arrays are outside the well-formed object-only domain. -/
theorem wfVal_not_arr {a : List NVal} (h : WfVal (.arr a)) : False := by
  cases h

/-- Flattening under a prefix is flattening at the root with the prefix
prepended to every path. -/
theorem flattenObj_prefix : ∀ (n : Nat) (entries : List (JStr × NVal)) (pre : List JStr),
    sizeOf entries ≤ n →
    flattenObj pre entries = (flattenObj [] entries).map (fun pv => (pre ++ pv.1, pv.2)) := by
  intro n
  induction n with
  | zero =>
    intro entries pre h
    cases entries <;> simp at h
  | succ n ih =>
    intro entries pre h
    cases entries with
    | nil => simp [flattenObj]
    | cons e rest =>
      obtain ⟨k, v⟩ := e
      have hrest : sizeOf rest ≤ n := by simp at h; omega
      rw [flattenObj, flattenObj, List.map_append, ← ih rest pre hrest]
      congr 1
      cases v with
      | prim p => simp [flattenVal]
      | arr a => simp [flattenVal]
      | obj sub =>
        have hsub : sizeOf sub ≤ n := by simp at h; omega
        rw [flattenVal, flattenVal, ih sub (pre ++ [k]) hsub, ih sub ([] ++ [k]) hsub,
          List.map_map]
        apply List.map_congr_left
        intro pv _
        simp [Function.comp, List.append_assoc]

/-- Every flattened path of a well-formed record is nonempty and made of
flattening-fit segments. -/
theorem flatten_paths : ∀ (n : Nat) (entries : List (JStr × NVal)), sizeOf entries ≤ n →
    (∀ e ∈ entries, keyOk e.1 = true) → (∀ e ∈ entries, WfVal e.2) →
    ∀ pv ∈ flattenObj [] entries, pv.1 ≠ [] ∧ ∀ s ∈ pv.1, keyOk s = true := by
  intro n
  induction n with
  | zero =>
    intro entries h
    cases entries <;> simp at h
  | succ n ih =>
    intro entries h hkeys hvals pv hpv
    cases entries with
    | nil => simp [flattenObj] at hpv
    | cons e rest =>
      obtain ⟨k, v⟩ := e
      rw [flattenObj] at hpv
      rcases List.mem_append.mp hpv with hl | hr
      · have hkOk : keyOk k = true := hkeys (k, v) (List.mem_cons_self _ _)
        cases v with
        | prim p =>
          rw [flattenVal] at hl
          have hpv2 := List.mem_singleton.mp hl
          subst hpv2
          refine ⟨by simp, ?_⟩
          intro s hs
          simp at hs
          rw [hs]
          exact hkOk
        | arr a => exact absurd (hvals (k, .arr a) (List.mem_cons_self _ _)) (fun hw => wfVal_not_arr hw)
        | obj sub =>
          have hsub : sizeOf sub ≤ n := by simp at h; omega
          rw [flattenVal, flattenObj_prefix n sub ([] ++ [k]) hsub] at hl
          obtain ⟨qv, hq, hmap⟩ := List.mem_map.mp hl
          have hw := wfVal_obj_inv (hvals (k, .obj sub) (List.mem_cons_self _ _))
          have hsubpaths := ih sub hsub hw.2.2.1 hw.2.2.2 qv hq
          subst hmap
          refine ⟨by simp, ?_⟩
          intro s hs
          simp at hs
          rcases hs with hs | hs
          · rw [hs]
            exact hkOk
          · exact hsubpaths.2 s hs
      · have hrest : sizeOf rest ≤ n := by simp at h; omega
        exact ih rest hrest (fun e he => hkeys e (List.mem_cons_of_mem _ he))
          (fun e he => hvals e (List.mem_cons_of_mem _ he)) pv hr

/-- Flattening a nonempty well-formed record yields at least one pair. -/
theorem flattenObj_ne_nil : ∀ (n : Nat) (entries : List (JStr × NVal)), sizeOf entries ≤ n →
    entries ≠ [] → (∀ e ∈ entries, WfVal e.2) → flattenObj [] entries ≠ [] := by
  intro n
  induction n with
  | zero =>
    intro entries h
    cases entries <;> simp at h
  | succ n ih =>
    intro entries h hne hvals
    cases entries with
    | nil => exact absurd rfl hne
    | cons e rest =>
      obtain ⟨k, v⟩ := e
      rw [flattenObj]
      intro hnil
      rcases List.append_eq_nil.mp hnil with ⟨h1, _⟩
      cases v with
      | prim p =>
        rw [flattenVal] at h1
        simp at h1
      | arr a => exact wfVal_not_arr (hvals (k, .arr a) (List.mem_cons_self _ _))
      | obj sub =>
        have hw := wfVal_obj_inv (hvals (k, .obj sub) (List.mem_cons_self _ _))
        have hsub : sizeOf sub ≤ n := by simp at h; omega
        rw [flattenVal, flattenObj_prefix n sub ([] ++ [k]) hsub] at h1
        exact ih sub hsub hw.1 hw.2.2.2 (List.map_eq_nil_iff.mp h1)

/-- The flattening of a member entry is contained in the flattening of the
record. -/
theorem flatten_entry_mem (row : NRow) (k : JStr) (v : NVal) (h : (k, v) ∈ row) :
    ∀ x ∈ flattenVal ([] ++ [k]) v, x ∈ flattenObj [] row := by
  induction row with
  | nil => exact absurd h (List.not_mem_nil _)
  | cons f t ih =>
    intro x hx
    obtain ⟨fk, fv⟩ := f
    rw [flattenObj]
    rcases List.mem_cons.mp h with heq | ht
    · cases heq
      exact List.mem_append_left _ hx
    · exact List.mem_append_right _ (ih ht x hx)


/-- Folding the tail paths of one nested key rebuilds that key's object in
place at the end of the record. -/
theorem buildFocus (k : JStr) (R : NRow) (hk : k ∉ R.map Prod.fst) :
    ∀ (L : List (List JStr × JSValue)) (C : NRow),
    (∀ pv ∈ L, ∃ p0 pr, pv.1 = p0 :: pr ∧ isNumericSegment p0 = false) →
    L.foldl (fun r pv => setNestedValue r (k :: pv.1) (.prim pv.2)) (R ++ [(k, .obj C)])
      = R ++ [(k, .obj (L.foldl buildStep C))] := by
  intro L
  induction L with
  | nil =>
    intro C _
    rfl
  | cons pv t ih =>
    intro C hL
    obtain ⟨p0, pr, hp, hnum⟩ := hL pv (List.mem_cons_self _ _)
    rw [List.foldl_cons, List.foldl_cons]
    have hstep : setNestedValue (R ++ [(k, .obj C)]) (k :: pv.1) (.prim pv.2)
        = R ++ [(k, .obj (buildStep C pv))] := by
      rw [buildStep, hp]
      rw [snv_step_obj _ C k p0 pr _ (nGet_append_single R k (.obj C) hk)]
      exact nSet_append_single R k (.obj C) _ hk
    rw [hstep]
    exact ih (buildStep C pv) (fun q hq => hL q (List.mem_cons_of_mem _ hq))

/-- Replaying the flattening of a well-formed record on top of a record
with disjoint keys appends the original entries unchanged. -/
theorem buildEntries : ∀ (n : Nat) (entries R : NRow), sizeOf entries ≤ n →
    (entries.map Prod.fst).Nodup →
    (∀ e ∈ entries, keyOk e.1 = true) →
    (∀ e ∈ entries, WfVal e.2) →
    (∀ e ∈ entries, e.1 ∉ R.map Prod.fst) →
    buildList R (flattenObj [] entries) = R ++ entries := by
  intro n
  induction n with
  | zero =>
    intro entries R h
    cases entries <;> simp at h
  | succ n ih =>
    intro entries R h hnd hkeys hvals hdisj
    cases entries with
    | nil => simp [flattenObj, buildList]
    | cons e rest =>
      obtain ⟨k, v⟩ := e
      have hrest : sizeOf rest ≤ n := by simp at h; omega
      have hkR : k ∉ R.map Prod.fst := hdisj (k, v) (List.mem_cons_self _ _)
      rw [List.map_cons] at hnd
      have hndc := List.nodup_cons.mp hnd
      rw [flattenObj, buildList, List.foldl_append]
      simp only [List.nil_append]
      have hstep : (flattenVal [k] v).foldl buildStep R = R ++ [(k, v)] := by
        cases v with
        | prim p =>
          rw [flattenVal, List.foldl_cons, List.foldl_nil]
          show setNestedValue R [k] (.prim p) = R ++ [(k, .prim p)]
          rw [snv_single]
          exact nSet_of_not_mem R k _ hkR
        | arr a => exact absurd (hvals (k, .arr a) (List.mem_cons_self _ _)) (fun hw => wfVal_not_arr hw)
        | obj sub =>
          have hw := wfVal_obj_inv (hvals (k, .obj sub) (List.mem_cons_self _ _))
          have hsub : sizeOf sub ≤ n := by simp at h; omega
          rw [flattenVal, flattenObj_prefix n sub [k] hsub, List.foldl_map]
          show (flattenObj [] sub).foldl (fun r pv => setNestedValue r (k :: pv.1) (.prim pv.2)) R
              = R ++ [(k, .obj sub)]
          obtain ⟨q, L, hql⟩ := List.exists_cons_of_ne_nil
            (flattenObj_ne_nil n sub hsub hw.1 hw.2.2.2)
          have hqmem : q ∈ flattenObj [] sub := by
            rw [hql]
            exact List.mem_cons_self q L
          obtain ⟨hqne, hqseg⟩ := flatten_paths n sub hsub hw.2.2.1 hw.2.2.2 q hqmem
          obtain ⟨q0, qr, hq0⟩ := List.exists_cons_of_ne_nil hqne
          have hq0num : isNumericSegment q0 = false :=
            keyOk_not_numeric (hqseg q0 (hq0 ▸ List.mem_cons_self _ _))
          have hLpaths : ∀ pv ∈ L, ∃ p0 pr, pv.1 = p0 :: pr ∧ isNumericSegment p0 = false := by
            intro pv hpv
            have hmem : pv ∈ flattenObj [] sub := by
              rw [hql]
              exact List.mem_cons_of_mem q hpv
            obtain ⟨hne2, hseg2⟩ := flatten_paths n sub hsub hw.2.2.1 hw.2.2.2 pv hmem
            obtain ⟨p0, pr, hp⟩ := List.exists_cons_of_ne_nil hne2
            exact ⟨p0, pr, hp, keyOk_not_numeric (hseg2 p0 (hp ▸ List.mem_cons_self _ _))⟩
          have hfirst : setNestedValue R (k :: q.1) (.prim q.2)
              = R ++ [(k, .obj (buildStep [] q))] := by
            rw [buildStep, hq0]
            rw [snv_step_absent R k q0 qr _ (nGet_none_of_not_mem R k hkR) hq0num]
            exact nSet_of_not_mem R k _ hkR
          have hsubbuild : L.foldl buildStep (buildStep [] q) = sub := by
            have hfull := ih sub [] hsub hw.2.1 hw.2.2.1 hw.2.2.2 (by intro e he; simp)
            rw [buildList, hql, List.foldl_cons] at hfull
            simpa using hfull
          rw [hql, List.foldl_cons, hfirst, buildFocus k R hkR L (buildStep [] q) hLpaths,
            hsubbuild]
      rw [hstep]
      have hrec := ih rest (R ++ [(k, v)]) hrest hndc.2
        (fun e he => hkeys e (List.mem_cons_of_mem _ he))
        (fun e he => hvals e (List.mem_cons_of_mem _ he))
        (by
          intro e he hmem
          rw [List.map_append] at hmem
          rcases List.mem_append.mp hmem with h1 | h2
          · exact hdisj e (List.mem_cons_of_mem _ he) h1
          · simp at h2
            exact hndc.1 (h2 ▸ List.mem_map.mpr ⟨e, he, rfl⟩))
      rw [buildList] at hrec
      rw [hrec, List.append_assoc, List.singleton_append]

/-- On flat rows whose keys are joined well-shaped paths, the nesting pass
is the path-by-path rebuild. -/
theorem processRow_eq_buildList (row : NRow)
    (hpaths : ∀ pv ∈ flattenObj [] row, pv.1 ≠ [] ∧ ∀ s ∈ pv.1, keyOk s = true) :
    processRowForNesting (flattenRow row) = buildList [] (flattenObj [] row) := by
  rw [processRowForNesting, flattenRow, List.foldl_map, buildList]
  apply List.foldl_ext
  intro acc pv hpv
  obtain ⟨hne, hseg⟩ := hpaths pv hpv
  obtain ⟨p0, pr, hp⟩ := List.exists_cons_of_ne_nil hne
  show (if (joinPath pv.1).contains '.' = true then
          setNestedValue acc (splitOnChar '.' (joinPath pv.1)) (.prim pv.2)
        else nSet acc (joinPath pv.1) (.prim pv.2)) = buildStep acc pv
  cases pr with
  | nil =>
    have hnd : (joinPath pv.1).contains '.' = false := by
      rw [hp, joinPath_single]
      exact keyOk_no_dot (hseg p0 (hp ▸ List.mem_cons_self _ _))
    rw [hnd, if_neg (by simp), buildStep, hp, snv_single, joinPath_single]
  | cons p1 prr =>
    have hdot : (joinPath pv.1).contains '.' = true := by
      rw [hp]
      exact joinPath_contains_dot p0 p1 prr
    have hsplit : splitOnChar '.' (joinPath pv.1) = pv.1 := by
      rw [hp]
      exact split_join (p0 :: p1 :: prr) (by simp)
        (fun s hs => keyOk_dot_not_mem (hseg s (hp ▸ hs)))
    rw [hdot, if_pos rfl, hsplit, buildStep]

/-- A row of primitives flattens to itself. -/
theorem allPrim_flattenRow (row : NRow) (h : ∀ e ∈ row, ∃ p, e.2 = NVal.prim p) :
    flattenRow row = row := by
  induction row with
  | nil => rfl
  | cons e t ih =>
    obtain ⟨k, v⟩ := e
    obtain ⟨p, hp⟩ := h (k, v) (List.mem_cons_self _ _)
    have hv : v = NVal.prim p := hp
    subst hv
    have ih2 := ih (fun e he => h e (List.mem_cons_of_mem _ he))
    rw [flattenRow] at ih2
    rw [flattenRow, flattenObj, flattenVal, List.map_append, ih2]
    simp [joinPath_single]

/-- If no flattened key contains a dot, every value of the well-formed row
was a primitive. -/
theorem allPrim_of_noDot (row : NRow) (hvals : ∀ e ∈ row, WfVal e.2)
    (hnd : (flattenRow row).any (fun e => e.1.contains '.') = false) :
    ∀ e ∈ row, ∃ p, e.2 = NVal.prim p := by
  intro e he
  obtain ⟨k, v⟩ := e
  have hw : WfVal v := hvals (k, v) he
  cases hw with
  | prim p => exact ⟨p, rfl⟩
  | obj sub hne2 hnd2 hk2 hv2 =>
    exfalso
    obtain ⟨q, L, hql⟩ := List.exists_cons_of_ne_nil
      (flattenObj_ne_nil (sizeOf sub) sub le_rfl hne2 hv2)
    have hq : q ∈ flattenObj [] sub := by
      rw [hql]
      exact List.mem_cons_self q L
    have hx : ([] ++ [k] ++ q.1, q.2) ∈ flattenVal ([] ++ [k]) (.obj sub) := by
      rw [flattenVal, flattenObj_prefix (sizeOf sub) sub ([] ++ [k]) le_rfl]
      exact List.mem_map.mpr ⟨q, hq, rfl⟩
    have hxrow := flatten_entry_mem row k (.obj sub) he _ hx
    obtain ⟨hqne, hqseg⟩ := flatten_paths (sizeOf sub) sub le_rfl hk2 hv2 q hq
    obtain ⟨q0, qr, hq0⟩ := List.exists_cons_of_ne_nil hqne
    have hmem : (joinPath ([] ++ [k] ++ q.1), NVal.prim q.2) ∈ flattenRow row := by
      rw [flattenRow]
      exact List.mem_map.mpr ⟨([] ++ [k] ++ q.1, q.2), hxrow, rfl⟩
    have hdot : (joinPath ([] ++ [k] ++ q.1)).contains '.' = true := by
      rw [hq0]
      exact joinPath_contains_dot k q0 qr
    have hany : (flattenRow row).any (fun e => e.1.contains '.') = true :=
      List.any_eq_true.mpr ⟨_, hmem, hdot⟩
    rw [hnd] at hany
    exact Bool.false_ne_true hany


/-- C9: the claim fails as stated: the row `{a: {}}` has no purely-numeric
path segment in its flattening (it has no flattened keys at all), yet
rebuilding the flat row does not restore the original nested shape — the
empty nested record is lost by flattening. -/
theorem claim_C9_counterexample :
    (∀ pv ∈ flattenObj [] [(js "a", NVal.obj [])], ∀ s ∈ pv.1, isNumericSegment s = false) ∧
    createNestedObjects [flattenRow [(js "a", NVal.obj [])]] ≠ [[(js "a", NVal.obj [])]] := by
  have hfl : flattenObj [] [(js "a", NVal.obj [])] = [] := by
    rw [flattenObj, flattenVal, flattenObj, flattenObj]
    rfl
  constructor
  · rw [hfl]
    intro pv hpv
    exact absurd hpv (List.not_mem_nil pv)
  · have hrow : flattenRow [(js "a", NVal.obj [])] = [] := by
      rw [flattenRow, hfl]
      rfl
    rw [hrow, createNestedObjects]
    simp

/-- Claim C9 (amended): `createNestedObjects` inverts dot-notation
flattening on well-formed object-only rows: all nested records nonempty
with unique keys, and every key (each path segment) free of dots and not
purely numeric. Under these conditions rebuilding the flattened row yields
exactly the original row, non-dotted keys passing through unchanged at the
top level. -/
theorem claim_C9 (row : NRow) (h : WfRow row) :
    createNestedObjects [flattenRow row] = [row] := by
  obtain ⟨hnd, hkeys, hvals⟩ := h
  rw [createNestedObjects]
  by_cases hdot : (flattenRow row).any (fun e => e.1.contains '.') = true
  · rw [if_pos hdot]
    simp only [List.map_cons, List.map_nil]
    rw [processRow_eq_buildList row (flatten_paths (sizeOf row) row le_rfl hkeys hvals),
      buildEntries (sizeOf row) row [] le_rfl hnd hkeys hvals (by intro e he; simp),
      List.nil_append]
  · rw [if_neg hdot]
    have hnd2 : (flattenRow row).any (fun e => e.1.contains '.') = false :=
      Bool.eq_false_iff.mpr hdot
    rw [allPrim_flattenRow row (allPrim_of_noDot row hvals hnd2)]

/-- Applies claim C9 at the concrete nested row `{a: {b: 1}}`. -/
theorem claim_C9_witness :
    WfRow [(js "a", NVal.obj [(js "b", NVal.prim (.num (.fin 1)))])] ∧
    createNestedObjects [flattenRow [(js "a", NVal.obj [(js "b", NVal.prim (.num (.fin 1)))])]] =
      [[(js "a", NVal.obj [(js "b", NVal.prim (.num (.fin 1)))])]] := by
  have hb : WfVal (NVal.prim (JSValue.num (.fin 1))) := WfVal.prim _
  have ha : WfVal (NVal.obj [(js "b", NVal.prim (.num (.fin 1)))]) := by
    refine WfVal.obj _ (by simp) (by simp) ?_ ?_
    · intro e he
      have he2 := List.mem_singleton.mp he
      subst he2
      decide
    · intro e he
      have he2 := List.mem_singleton.mp he
      subst he2
      exact hb
  have hwf : WfRow [(js "a", NVal.obj [(js "b", NVal.prim (.num (.fin 1)))])] := by
    refine ⟨by simp, ?_, ?_⟩
    · intro e he
      have he2 := List.mem_singleton.mp he
      subst he2
      decide
    · intro e he
      have he2 := List.mem_singleton.mp he
      subst he2
      exact ha
  exact ⟨hwf, claim_C9 _ hwf⟩

end ExcelToJson
